import Mathlib

set_option maxRecDepth 16384

/-!
Verification of the authentication / secure-storage core of the repository
(`SecurityUtils` in src/utils/SecurityUtils.ts and `AuthService` in
src/services/AuthService.ts), shallowly embedded in Lean.

JavaScript strings are modelled as lists of UTF-16 code units (`JStr`),
`Date.now()` as an explicit clock threaded through a system state, and
`AsyncStorage` as an association list from keys to values.  Platform
functions used by the code (`btoa`, `atob`, `JSON.stringify`, `JSON.parse`)
are modelled constructively: `btoa` and `atob` as base64 on byte lists
(failing, like the platform functions, on inputs outside their domain), and
JSON serialisation by concrete printers for the record shapes the
application writes together with parsers that invert them (modelling
`JSON.parse` on the canonical strings this application produces).
-/

/-- A JavaScript string: its list of UTF-16 code units. -/
abbrev JStr : Type := List Nat

/-- Embed a Lean string literal (BMP characters only) as a `JStr`. -/
def jstr (s : String) : JStr := s.data.map Char.toNat

namespace JsModel

/-- The base64 alphabet: value (0..63) to code unit. -/
def b64ch (n : Nat) : Nat :=
  if n < 26 then 65 + n
  else if n < 52 then 97 + (n - 26)
  else if n < 62 then 48 + (n - 52)
  else if n = 62 then 43
  else 47

/-- Partial inverse of the base64 alphabet: code unit to value. -/
def b64val (c : Nat) : Option Nat :=
  if 65 ≤ c ∧ c ≤ 90 then some (c - 65)
  else if 97 ≤ c ∧ c ≤ 122 then some (26 + (c - 97))
  else if 48 ≤ c ∧ c ≤ 57 then some (52 + (c - 48))
  else if c = 43 then some 62
  else if c = 47 then some 63
  else none

theorem b64val_b64ch : ∀ n, n < 64 → b64val (b64ch n) = some n := by decide

theorem b64ch_bounds : ∀ n, 43 ≤ b64ch n ∧ b64ch n ≤ 122 ∧ b64ch n ≠ 92 ∧
    b64ch n ≠ 34 ∧ b64ch n ≠ 61 := by
  intro n
  unfold b64ch
  split <;> [omega; split <;> [omega; split <;> [omega; split <;> omega]]]

/-- The platform function `btoa`: base64-encode a binary string.  Returns
`none` (the function throws `InvalidCharacterError`) when some code unit
exceeds 255. -/
def btoa : List Nat → Option (List Nat)
  | [] => some []
  | [a] =>
    if a < 256 then some [b64ch (a / 4), b64ch (a % 4 * 16), 61, 61] else none
  | [a, b] =>
    if a < 256 ∧ b < 256 then
      some [b64ch (a / 4), b64ch (a % 4 * 16 + b / 16), b64ch (b % 16 * 4), 61]
    else none
  | a :: b :: c :: rest =>
    if a < 256 ∧ b < 256 ∧ c < 256 then
      (btoa rest).map fun t =>
        b64ch (a / 4) :: b64ch (a % 4 * 16 + b / 16) ::
        b64ch (b % 16 * 4 + c / 64) :: b64ch (c % 64) :: t
    else none

/-- The platform function `atob`: base64-decode.  Returns `none` (the
function throws) on strings that are not base64.  Modelled on canonical
base64 (groups of four symbols, `=`-padding at the end only); leftover bits
in the final group are discarded, as in the forgiving-base64 algorithm. -/
def atob : List Nat → Option (List Nat)
  | [] => some []
  | [e0, e1] => do
    let v0 ← b64val e0
    let v1 ← b64val e1
    some [v0 * 4 + v1 / 16]
  | [e0, e1, e2] => do
    let v0 ← b64val e0
    let v1 ← b64val e1
    let v2 ← b64val e2
    some [v0 * 4 + v1 / 16, v1 % 16 * 16 + v2 / 4]
  | e0 :: e1 :: e2 :: e3 :: rest => do
    let v0 ← b64val e0
    let v1 ← b64val e1
    if e2 = 61 then
      if e3 = 61 ∧ rest = [] then some [v0 * 4 + v1 / 16] else none
    else do
      let v2 ← b64val e2
      if e3 = 61 then
        if rest = [] then some [v0 * 4 + v1 / 16, v1 % 16 * 16 + v2 / 4]
        else none
      else do
        let v3 ← b64val e3
        let t ← atob rest
        some ((v0 * 4 + v1 / 16) :: (v1 % 16 * 16 + v2 / 4) :: (v2 % 4 * 64 + v3) :: t)
  | _ => none

/-- Code units that may sit unescaped inside a JSON string literal and
survive `btoa`: printable ASCII other than the quote and the backslash. -/
def plainB (c : Nat) : Bool :=
  decide (32 ≤ c) && decide (c < 128) && decide (c ≠ 34) && decide (c ≠ 92)

theorem plainB_iff {c : Nat} :
    plainB c = true ↔ 32 ≤ c ∧ c < 128 ∧ c ≠ 34 ∧ c ≠ 92 := by
  simp [plainB, and_assoc]

theorem b64ch_plain (n : Nat) : plainB (b64ch n) = true := by
  have h := b64ch_bounds n
  rw [plainB_iff]
  omega

/-- Round trip: `atob` inverts `btoa` on byte lists, and the encoded form
consists of plain characters. -/
theorem atob_btoa (s : List Nat) (hs : ∀ c ∈ s, c < 256) :
    ∃ t, btoa s = some t ∧ atob t = some s ∧ (∀ c ∈ t, plainB c = true) ∧
      (s ≠ [] → t ≠ []) := by
  induction s using btoa.induct with
  | case1 =>
    exact ⟨[], rfl, rfl, by simp, by simp⟩
  | case2 a ha =>
    refine ⟨[b64ch (a / 4), b64ch (a % 4 * 16), 61, 61],
      by simp [btoa, ha], ?_, ?_, by simp⟩
    · have h0 : a / 4 < 64 := by omega
      have h1 : a % 4 * 16 < 64 := by omega
      simp [atob, b64val_b64ch _ h0, b64val_b64ch _ h1]
      omega
    · intro c hc
      simp only [List.mem_cons, List.not_mem_nil, or_false] at hc
      rcases hc with h | h | h | h <;> subst h <;>
        first
        | exact b64ch_plain _
        | rw [plainB_iff]; omega
  | case3 a ha =>
    exact absurd (hs a (by simp)) ha
  | case4 a b hab =>
    obtain ⟨ha, hb⟩ := hab
    have hpad2 := b64ch_bounds (b % 16 * 4)
    refine ⟨[b64ch (a / 4), b64ch (a % 4 * 16 + b / 16), b64ch (b % 16 * 4), 61],
      by simp [btoa, ha, hb], ?_, ?_, by simp⟩
    · have h0 : a / 4 < 64 := by omega
      have h1 : a % 4 * 16 + b / 16 < 64 := by omega
      have h2 : b % 16 * 4 < 64 := by omega
      simp [atob, b64val_b64ch _ h0, b64val_b64ch _ h1, b64val_b64ch _ h2,
        hpad2.2.2.2.2]
      omega
    · intro c hc
      simp only [List.mem_cons, List.not_mem_nil, or_false] at hc
      rcases hc with h | h | h | h <;> subst h <;>
        first
        | exact b64ch_plain _
        | rw [plainB_iff]; omega
  | case5 a b hab =>
    exact absurd ⟨hs a (by simp), hs b (by simp)⟩ hab
  | case6 a b c rest habc ih =>
    obtain ⟨ha, hb, hc⟩ := habc
    have hpad2 := b64ch_bounds (b % 16 * 4 + c / 64)
    have hpad3 := b64ch_bounds (c % 64)
    obtain ⟨t, hbt, hab, hpl, -⟩ := ih (fun x hx => hs x (by simp [hx]))
    refine ⟨b64ch (a / 4) :: b64ch (a % 4 * 16 + b / 16) ::
      b64ch (b % 16 * 4 + c / 64) :: b64ch (c % 64) :: t,
      by simp [btoa, ha, hb, hc, hbt], ?_, ?_, by simp⟩
    · have h0 : a / 4 < 64 := by omega
      have h1 : a % 4 * 16 + b / 16 < 64 := by omega
      have h2 : b % 16 * 4 + c / 64 < 64 := by omega
      have h3 : c % 64 < 64 := by omega
      simp [atob, b64val_b64ch _ h0, b64val_b64ch _ h1, b64val_b64ch _ h2,
        b64val_b64ch _ h3, hpad2.2.2.2.2, hpad3.2.2.2.2, hab]
      omega
    · intro x hx
      simp only [List.mem_cons] at hx
      rcases hx with h | h | h | h | h
      · subst h; exact b64ch_plain _
      · subst h; exact b64ch_plain _
      · subst h; exact b64ch_plain _
      · subst h; exact b64ch_plain _
      · exact hpl x h
  | case7 a b c rest habc =>
    exact absurd ⟨hs a (by simp), hs b (by simp), hs c (by simp)⟩ habc

end JsModel

namespace JsModel

/-- Digit character for the value `n` (0-9 then a-z), as produced by
Number.prototype.toString. -/
def digCh (n : Nat) : Nat := if n < 10 then 48 + n else 87 + n

/-- Digits in base `b`, most significant first, with explicit fuel (kept
structural so the kernel can evaluate it); any fuel above `n` computes the
digits, each step dividing `n` by `b ≥ 2`. -/
def natDigitsAux (b : Nat) : Nat → Nat → List Nat
  | 0, _ => []
  | fuel + 1, n =>
    if n < b then [digCh n] else natDigitsAux b fuel (n / b) ++ [digCh (n % b)]

/-- Digits of `n` in base `b` (most significant first), for `2 ≤ b`. -/
def natDigits (b n : Nat) : List Nat :=
  if b < 2 then [] else natDigitsAux b (n + 1) n

theorem natDigitsAux_congr (b : Nat) (hb : 2 ≤ b) :
    ∀ f1 f2 n, n < f1 → n < f2 → natDigitsAux b f1 n = natDigitsAux b f2 n := by
  intro f1
  induction f1 with
  | zero =>
    intro f2 n h1 h2
    omega
  | succ f ih =>
    intro f2 n h1 h2
    cases f2 with
    | zero => omega
    | succ g =>
      rw [natDigitsAux, natDigitsAux]
      by_cases hn : n < b
      · simp [hn]
      · simp only [if_neg hn]
        have hdiv : n / b < n := Nat.div_lt_self (by omega) (by omega)
        rw [ih g (n / b) (by omega) (by omega)]

/-- The recurrence the fuel implementation satisfies. -/
theorem natDigits_eq (b n : Nat) (hb : 2 ≤ b) :
    natDigits b n =
      if n < b then [digCh n] else natDigits b (n / b) ++ [digCh (n % b)] := by
  by_cases hn : n < b
  · rw [if_pos hn, natDigits, if_neg (by omega), natDigitsAux, if_pos hn]
  · have hdiv : n / b < n := Nat.div_lt_self (by omega) (by omega)
    rw [if_neg hn, natDigits, if_neg (by omega), natDigitsAux, if_neg hn,
      natDigits, if_neg (by omega),
      natDigitsAux_congr b hb n (n / b + 1) (n / b) (by omega) (by omega)]

/-- Number.prototype.toString(b) for an integer value: optional minus sign
followed by the base-`b` digits of the absolute value. -/
def intStr (b : Nat) (n : Int) : JStr :=
  if n < 0 then 45 :: natDigits b (-n).toNat else natDigits b n.toNat

theorem natDigits_ne_nil (b n : Nat) (hb : 2 ≤ b) : natDigits b n ≠ [] := by
  rw [natDigits_eq b n hb]
  split <;> simp

theorem natDigits_chars (b n : Nat) (hb : b ≤ 36) :
    ∀ c ∈ natDigits b n, (48 ≤ c ∧ c ≤ 57) ∨ (97 ≤ c ∧ c ≤ 122) := by
  by_cases hb2 : b < 2
  · rw [natDigits, if_pos hb2]
    simp
  · induction n using Nat.strong_induction_on with
    | _ n ih =>
      rw [natDigits_eq b n (by omega)]
      split
      · intro c hc
        simp only [List.mem_singleton] at hc
        subst hc
        unfold digCh
        split <;> omega
      · intro c hc
        rw [List.mem_append] at hc
        rcases hc with hc | hc
        · exact ih (n / b) (Nat.div_lt_self (by omega) (by omega)) c hc
        · simp only [List.mem_singleton] at hc
          subst hc
          unfold digCh
          have hm : n % b < b := Nat.mod_lt n (by omega)
          split <;> omega

theorem intStr_chars (b : Nat) (n : Int) (hb : b ≤ 36) :
    ∀ c ∈ intStr b n, c = 45 ∨ (48 ≤ c ∧ c ≤ 57) ∨ (97 ≤ c ∧ c ≤ 122) := by
  unfold intStr
  split
  · intro c hc
    rcases List.mem_cons.mp hc with h | h
    · exact Or.inl h
    · exact Or.inr (natDigits_chars b _ hb c h)
  · intro c hc
    exact Or.inr (natDigits_chars b _ hb c hc)

theorem intStr_ne_nil (b : Nat) (n : Int) (hb : 2 ≤ b) : intStr b n ≠ [] := by
  unfold intStr
  split
  · simp
  · exact natDigits_ne_nil b _ hb

/-- Decimal value of a digit string, as accumulated left to right. -/
def decVal (s : JStr) : Nat := s.foldl (fun a c => a * 10 + (c - 48)) 0

theorem decVal_natDigits (n : Nat) : decVal (natDigits 10 n) = n := by
  induction n using Nat.strong_induction_on with
  | _ n ih =>
    rw [natDigits_eq 10 n (by omega)]
    split
    · unfold decVal digCh
      simp only [List.foldl_cons, List.foldl_nil]
      split <;> omega
    · unfold decVal
      rw [List.foldl_append]
      have hrec := ih (n / 10) (Nat.div_lt_self (by omega) (by omega))
      unfold decVal at hrec
      rw [hrec]
      simp only [List.foldl_cons, List.foldl_nil]
      unfold digCh
      have hm : n % 10 < 10 := Nat.mod_lt n (by omega)
      split <;> omega

theorem natDigits_digits (n : Nat) : ∀ c ∈ natDigits 10 n, 48 ≤ c ∧ c ≤ 57 := by
  induction n using Nat.strong_induction_on with
  | _ n ih =>
    rw [natDigits_eq 10 n (by omega)]
    split
    · intro c hc
      simp only [List.mem_singleton] at hc
      subst hc
      unfold digCh
      split <;> omega
    · intro c hc
      rw [List.mem_append] at hc
      rcases hc with hc | hc
      · exact ih (n / 10) (Nat.div_lt_self (by omega) (by omega)) c hc
      · simp only [List.mem_singleton] at hc
        subst hc
        unfold digCh
        have hm : n % 10 < 10 := Nat.mod_lt n (by omega)
        split <;> omega

end JsModel

namespace JsModel

/-- Split a leading run of decimal digit characters. -/
def takeDigits : JStr → JStr × JStr
  | [] => ([], [])
  | c :: cs =>
    if 48 ≤ c ∧ c ≤ 57 then
      let p := takeDigits cs
      (c :: p.1, p.2)
    else ([], c :: cs)

/-- Read an optionally signed decimal integer, returning it with the rest of
the input (the integer fragment of the JSON number grammar, which is all the
application ever serialises). -/
def parseIntJ (s : JStr) : Option (Int × JStr) :=
  match s with
  | [] => none
  | c :: cs =>
    if c = 45 then
      let p := takeDigits cs
      if p.1 = [] then none else some (-(decVal p.1 : Int), p.2)
    else
      let p := takeDigits (c :: cs)
      if p.1 = [] then none else some ((decVal p.1 : Int), p.2)

theorem takeDigits_append (d r : JStr) (hd : ∀ c ∈ d, 48 ≤ c ∧ c ≤ 57)
    (hr : ∀ c, r.head? = some c → ¬(48 ≤ c ∧ c ≤ 57)) :
    takeDigits (d ++ r) = (d, r) := by
  induction d with
  | nil =>
    cases r with
    | nil => rfl
    | cons c cs =>
      have := hr c rfl
      simp [takeDigits, this]
  | cons c cs ih =>
    have hc := hd c (by simp)
    simp [takeDigits, hc, ih (fun x hx => hd x (by simp [hx]))]

theorem parseIntJ_print (n : Int) (r : JStr)
    (hr : ∀ c, r.head? = some c → ¬(48 ≤ c ∧ c ≤ 57)) :
    parseIntJ (intStr 10 n ++ r) = some (n, r) := by
  unfold intStr
  split
  · rename_i hneg
    rw [List.cons_append]
    rw [parseIntJ]
    simp only [if_pos rfl]
    rw [takeDigits_append _ _ (natDigits_digits _) hr]
    simp only [natDigits_ne_nil 10 _ (by omega), if_neg, ite_false]
    rw [decVal_natDigits]
    have : ((-n).toNat : Int) = -n := Int.toNat_of_nonneg (by omega)
    rw [this]
    simp
  · rename_i hpos
    obtain ⟨c, cs, hcons⟩ : ∃ c cs, natDigits 10 n.toNat = c :: cs := by
      cases h : natDigits 10 n.toNat with
      | nil => exact absurd h (natDigits_ne_nil 10 _ (by omega))
      | cons c cs => exact ⟨c, cs, rfl⟩
    have hc : 48 ≤ c ∧ c ≤ 57 := natDigits_digits n.toNat c (by rw [hcons]; simp)
    rw [hcons, List.cons_append, parseIntJ]
    have hc45 : ¬(c = 45) := by omega
    simp only [if_neg hc45]
    rw [← List.cons_append, ← hcons,
      takeDigits_append _ _ (natDigits_digits _) hr]
    simp only [natDigits_ne_nil 10 _ (by omega), ite_false]
    rw [decVal_natDigits]
    have : (n.toNat : Int) = n := Int.toNat_of_nonneg (by omega)
    rw [this]

end JsModel

namespace JsModel

/-- key.charCodeAt(i % key.length).  For the empty key the JS index is NaN,
charCodeAt returns NaN, and x ^ NaN is x ^ 0, so the key code is 0. -/
def keyAt (k : JStr) (i : Nat) : Nat :=
  match k with
  | [] => 0
  | _ :: _ => k.getD (i % k.length) 0

/-- The xor loop shared by SecurityUtils.encrypt and SecurityUtils.decrypt,
starting at character index `i`. -/
def xorFrom (k : JStr) (i : Nat) : JStr → JStr
  | [] => []
  | c :: cs => (c ^^^ keyAt k i) :: xorFrom k (i + 1) cs

/-- Xor a string character-wise with the cyclically repeated key. -/
def xorWith (k : JStr) (s : JStr) : JStr := xorFrom k 0 s

/-- SecurityUtils.encrypt: xor with the cyclically repeated key, then btoa.
`none` models the btoa exception escaping encrypt (encrypt itself has no
try/catch). -/
def encrypt (text key : JStr) : Option JStr := btoa (xorWith key text)

/-- SecurityUtils.decrypt: atob, then xor with the key; any exception is
caught and the empty string is returned. -/
def decrypt (encryptedText key : JStr) : JStr :=
  match atob encryptedText with
  | none => []
  | some decoded => xorWith key decoded

theorem xorFrom_xorFrom (k : JStr) (i : Nat) (s : JStr) :
    xorFrom k i (xorFrom k i s) = s := by
  induction s generalizing i with
  | nil => rfl
  | cons c cs ih => simp [xorFrom, Nat.xor_cancel_right, ih]

theorem xorWith_xorWith (k s : JStr) : xorWith k (xorWith k s) = s :=
  xorFrom_xorFrom k 0 s

theorem xor_lt_256 {a b : Nat} (ha : a < 256) (hb : b < 256) : a ^^^ b < 256 := by
  have h : Nat.bitwise bne a b < 2 ^ 8 := Nat.bitwise_lt (by omega) (by omega)
  exact h

theorem keyAt_lt {k : JStr} {m : Nat} (hk : ∀ c ∈ k, c < m) (hm : 0 < m)
    (i : Nat) : keyAt k i < m := by
  cases k with
  | nil => simpa [keyAt]
  | cons c cs =>
    rw [keyAt, List.getD]
    rcases h : (c :: cs).get? (i % (c :: cs).length) with _ | x
    · simp only [h, Option.getD_none]
      omega
    · simp only [h, Option.getD_some]
      exact hk x (List.get?_mem h)

theorem xorFrom_lt_256 {k s : JStr} (hk : ∀ c ∈ k, c < 256)
    (hs : ∀ c ∈ s, c < 256) (i : Nat) : ∀ c ∈ xorFrom k i s, c < 256 := by
  induction s generalizing i with
  | nil => simp [xorFrom]
  | cons c cs ih =>
    intro x hx
    rw [xorFrom] at hx
    rcases List.mem_cons.mp hx with h | h
    · subst h
      exact xor_lt_256 (hs c (by simp)) (keyAt_lt hk (by omega) i)
    · exact ih (fun y hy => hs y (by simp [hy])) (i + 1) x h

/-- Round trip of the cipher under the byte-range side conditions imposed by
btoa: characters of text and key both below 256. -/
theorem decrypt_encrypt (text key : JStr) (ht : ∀ c ∈ text, c < 256)
    (hk : ∀ c ∈ key, c < 256) :
    ∃ ct, encrypt text key = some ct ∧ decrypt ct key = text := by
  obtain ⟨ct, hbt, hab, -, -⟩ := atob_btoa (xorWith key text) (xorFrom_lt_256 hk ht 0)
  refine ⟨ct, hbt, ?_⟩
  rw [decrypt, hab]
  exact xorWith_xorWith key text

end JsModel

namespace JsModel

/-- ToInt32: wrap an integer to the signed 32-bit range, as the JS bitwise
operators (<< and &) do. -/
def toInt32 (n : Int) : Int := (n + 2 ^ 31) % 2 ^ 32 - 2 ^ 31

/-- One iteration of the hash loop of `SecurityUtils.hashPassword`:
`hash = (hash << 5) - hash + char; hash = hash & hash`. -/
def hashStep (h : Int) (c : Nat) : Int := toInt32 (toInt32 (h * 32) - h + (c : Int))

/-- The fixed application salt of `SecurityUtils.hashPassword`. -/
def salt : JStr := jstr "APP_SALT_2024"

/-- SecurityUtils.hashPassword: the iterated hash plus the salt length,
rendered in base 36 and then base64-encoded.  `none` models the btoa
exception; it never fires, base-36 digits being ASCII. -/
def hashPassword (password : JStr) : Option JStr :=
  if password.length = 0 then some (intStr 10 0)
  else
    let h := password.foldl hashStep 0
    let saltedHash := intStr 36 (h + (salt.length : Int))
    btoa saltedHash

/-- SecurityUtils.generateSecureUserId at a fixed current timestamp `t`
(pure core of the function; the stateful wrapper draws `t` from the clock):
the digest of username + timestamp, truncated to 12 characters behind the
literal tag. -/
def genIdAt (username : JStr) (t : Int) : Option JStr :=
  (hashPassword (username ++ intStr 10 t)).map fun userHash =>
    jstr "user_" ++ userHash.take 12

theorem intStr_lt_128 (b : Nat) (n : Int) (hb : b ≤ 36) :
    ∀ c ∈ intStr b n, c < 128 := by
  intro c hc
  rcases intStr_chars b n hb c hc with h | h | h <;> omega

/-- hashPassword always succeeds, and its digest is a nonempty string of
plain characters. -/
theorem hashPassword_some (p : JStr) :
    ∃ d, hashPassword p = some d ∧ d ≠ [] ∧ ∀ c ∈ d, plainB c = true := by
  rw [hashPassword]
  split
  · refine ⟨intStr 10 0, rfl, intStr_ne_nil 10 0 (by omega), ?_⟩
    intro c hc
    rcases intStr_chars 10 0 (by omega) c hc with h | h | h <;>
      (rw [plainB_iff]; omega)
  · have hlt : ∀ c ∈ intStr 36 (p.foldl hashStep 0 + (salt.length : Int)), c < 256 := by
      intro c hc
      have := intStr_lt_128 36 _ (by omega) c hc
      omega
    obtain ⟨t, hbt, -, hpl, hne⟩ := atob_btoa _ hlt
    exact ⟨t, hbt, hne (intStr_ne_nil 36 _ (by omega)), hpl⟩

/-- The per-character step the specification describes: hash*31 + charCode
in wrapped 32-bit signed arithmetic. -/
def specStep (h : Int) (c : Nat) : Int := toInt32 (31 * h + (c : Int))

/-- The digest exactly as the specification words it: iterate the 31-ary
polynomial step over the password, add the length of the salt (13), render
in base 36, base64-encode. -/
def specDigest (password : JStr) : Option JStr :=
  btoa (intStr 36 (password.foldl specStep 0 + 13))

theorem hashStep_eq_specStep (h : Int) (c : Nat) : hashStep h c = specStep h c := by
  unfold hashStep specStep toInt32
  omega

end JsModel

namespace JsModel

/-- ASCII lowercasing as applied by toLowerCase to the inputs at hand (the
deny-list entries are ASCII; non-ASCII characters are left unchanged). -/
def lowerC (c : Nat) : Nat := if 65 ≤ c ∧ c ≤ 90 then c + 32 else c

/-- Word characters of the regex classes [a-zA-Z0-9_] and \b. -/
def isWordC (c : Nat) : Bool :=
  decide ((48 ≤ c ∧ c ≤ 57) ∨ (65 ≤ c ∧ c ≤ 90) ∨ (97 ≤ c ∧ c ≤ 122) ∨ c = 95)

/-- Case-insensitive literal match at the head of the input. -/
def startsWithCI (lit : List Nat) (s : JStr) : Bool :=
  (s.take lit.length).map lowerC == lit

/-- The regex \b boundary after the literal "<script": next character absent
or not a word character. -/
def wordBdry (r : JStr) : Bool :=
  match r with
  | [] => true
  | c :: _ => !isWordC c

/-- Scan for the first case-insensitive occurrence of the closing literal
"</script>", returning the input after it. -/
def findClose : JStr → Option JStr
  | [] => none
  | c :: cs =>
    if startsWithCI (jstr "</script>") (c :: cs) then some (List.drop 9 (c :: cs))
    else findClose cs

theorem startsWithCI_le_length {lit : List Nat} {s : JStr}
    (h : startsWithCI lit s = true) : lit.length ≤ s.length := by
  unfold startsWithCI at h
  rw [beq_iff_eq] at h
  have := congrArg List.length h
  simp at this
  omega

theorem findClose_length {s r : JStr} (h : findClose s = some r) :
    r.length < s.length := by
  induction s with
  | nil => simp [findClose] at h
  | cons c cs ih =>
    rw [findClose] at h
    split at h
    · rename_i hlit
      have h9 : 9 ≤ (c :: cs).length := by
        have := startsWithCI_le_length hlit
        simpa [jstr] using this
      injection h with h
      subst h
      simp
      omega
    · have := ih h
      simp
      omega

/-- One global pass of the script-strip regex replace
input.replace(STAG[^<]*((?!CTAG)<[^<]*)*CTAG, ''), with explicit fuel kept
structural so the kernel can evaluate it: at each position, a match starts
at a case-insensitive "<script" followed by a word boundary and runs to the
first subsequent case-insensitive "</script>"; matched spans are removed
and scanning resumes after them.  Every step consumes at least one
character, so fuel equal to the input length suffices. -/
def stripScriptAux : Nat → JStr → JStr
  | 0, _ => []
  | _ + 1, [] => []
  | fuel + 1, c :: cs =>
    if startsWithCI (jstr "<script") (c :: cs) && wordBdry (List.drop 7 (c :: cs)) then
      match findClose (List.drop 7 (c :: cs)) with
      | some rest => stripScriptAux fuel rest
      | none => c :: stripScriptAux fuel cs
    else c :: stripScriptAux fuel cs

def stripScript (s : JStr) : JStr := stripScriptAux s.length s

end JsModel

namespace JsModel

/-- The JS (and Unicode) white space set recognised by String.prototype.trim. -/
def isJsWS (c : Nat) : Bool :=
  ([9, 10, 11, 12, 13, 32, 160, 5760, 8192, 8193, 8194, 8195, 8196, 8197, 8198,
    8199, 8200, 8201, 8202, 8232, 8233, 8239, 8287, 12288, 65279] : List Nat).contains c

/-- input.trim(): drop white space from both ends. -/
def trimJ (s : JStr) : JStr :=
  ((s.dropWhile isJsWS).reverse.dropWhile isJsWS).reverse

/-- The character class [<>"'%;()&+] removed by the sanitiser. -/
def dangerChars : List Nat := [60, 62, 34, 39, 37, 59, 40, 41, 38, 43]

/-- sanitized.replace([<>"'%;()&+]/g, ''). -/
def stripDanger (s : JStr) : JStr := s.filter fun c => !(dangerChars.contains c)

/-- The full sanitisation pipeline of validateAndSanitizeInput: trim, strip
script blocks, strip dangerous characters. -/
def sanitizeJ (input : JStr) : JStr := stripDanger (stripScript (trimJ input))

inductive VKind | username | password | text
deriving DecidableEq, Repr

structure VResult where
  isValid : Bool
  sanitized : JStr
  errors : List JStr
deriving DecidableEq, Repr

def errUserShort : JStr := jstr "Username must be at least 3 characters long"

def errUserLong : JStr := jstr "Username must be less than 20 characters"

def errUserChars : JStr :=
  jstr "Username can only contain letters, numbers, and underscores"

def errPwShort : JStr := jstr "Password must be at least 8 characters long"

def errPwClasses : JStr :=
  jstr "Password must contain uppercase, lowercase, and numeric characters"

def errTextLong : JStr := jstr "Text content is too long (max 1000 characters)"

/-- The test of /^[a-zA-Z0-9_]+$/. -/
def usernameRe (s : JStr) : Bool := !s.isEmpty && s.all isWordC

/-- The line terminators of ECMA-262 (LF, CR, LS, PS), which the `.` atom
of a regular expression does not match. -/
def isLineTerm (c : Nat) : Bool := c == 10 || c == 13 || c == 8232 || c == 8233

/-- Match of a lookahead body `.*X` at one start position: a (possibly
empty) run of characters matched by `.` — anything except a line
terminator — followed by one character of the class `X`. -/
def sees (cls : Nat → Bool) : JStr → Bool
  | [] => false
  | c :: t => cls c || (!isLineTerm c && sees cls t)

/-- The three lookaheads of /(?=.*[a-z])(?=.*[A-Z])(?=.*\d)/, all applied at
the same start position. -/
def passwordReAt (s : JStr) : Bool :=
  sees (fun c => decide (97 ≤ c ∧ c ≤ 122)) s &&
  sees (fun c => decide (65 ≤ c ∧ c ≤ 90)) s &&
  sees (fun c => decide (48 ≤ c ∧ c ≤ 57)) s

/-- The test of /(?=.*[a-z])(?=.*[A-Z])(?=.*\d)/: RegExp.prototype.test
scans the start positions left to right and succeeds if the three
lookaheads all match at some common position.  Because `.` does not cross
line terminators, each lookahead only reaches the rest of the current
line, so the three classes must co-occur within one terminator-free
segment (a lookahead at the end of the input matches nothing, so the final
position never succeeds and is omitted). -/
def passwordRe : JStr → Bool
  | [] => false
  | s@(_ :: t) => passwordReAt s || passwordRe t

/-- SecurityUtils.validateAndSanitizeInput: sanitise, then collect the
per-kind error messages in push order; valid iff no errors. -/
def validateAndSanitizeInput (input : JStr) (type : VKind) : VResult :=
  let sanitized := sanitizeJ input
  let errors : List JStr :=
    match type with
    | .username =>
      (if sanitized.length < 3 then [errUserShort] else []) ++
      (if 20 < sanitized.length then [errUserLong] else []) ++
      (if !usernameRe sanitized then [errUserChars] else [])
    | .password =>
      (if sanitized.length < 8 then [errPwShort] else []) ++
      (if !passwordRe sanitized then [errPwClasses] else [])
    | .text =>
      if 1000 < sanitized.length then [errTextLong] else []
  { isValid := errors.isEmpty, sanitized := sanitized, errors := errors }

/-- The fixed weak-password deny list. -/
def weakPasswords : List JStr :=
  [jstr "password", jstr "123456", jstr "password123", jstr "admin",
   jstr "qwerty", jstr "letmein", jstr "welcome", jstr "monkey",
   jstr "1234567890", jstr "secret"]

/-- SecurityUtils.isWeakPassword: exact membership of the lowercased
password in the deny list. -/
def isWeakPassword (password : JStr) : Bool :=
  weakPasswords.contains (password.map lowerC)

/-- A rate-limit entry object {count, lastAttempt}, as the code creates it;
both fields then hold finite numbers. -/
structure RLEntry where
  count : Nat
  lastAttempt : Int
deriving DecidableEq, Repr

/-- The result shape of checkRateLimit. -/
structure RLResult where
  allowed : Bool
  remainingTime : Option Int
deriving DecidableEq, Repr

/-- The own entries of the attempt table: an association list with the most
recent binding first. -/
abbrev RLTable := List (JStr × RLEntry)

def lookupE (tbl : RLTable) (id : JStr) : Option RLEntry :=
  (tbl.find? fun p => p.1 == id).map (·.2)

def setE (tbl : RLTable) (id : JStr) (e : RLEntry) : RLTable :=
  (id, e) :: tbl.filter fun p => !(p.1 == id)

def lookupM (m : List (JStr × Int)) (id : JStr) : Option Int :=
  (m.find? fun p => p.1 == id).map (·.2)

def setM (m : List (JStr × Int)) (id : JStr) (t : Int) : List (JStr × Int) :=
  (id, t) :: m.filter fun p => !(p.1 == id)

/-- The own (string-keyed) data properties of Object.prototype, which the
plain object literal `authAttempts = {}` inherits: each of these names
resolves to a truthy function object when looked up on the table
(ECMA-262 20.1.3 together with the Annex B legacy methods; all of them
also pass the username validator).  The `__proto__` accessor property is
handled separately. -/
def objectProtoMembers : List JStr :=
  [jstr "constructor", jstr "hasOwnProperty", jstr "isPrototypeOf",
   jstr "propertyIsEnumerable", jstr "toLocaleString", jstr "toString",
   jstr "valueOf", jstr "__defineGetter__", jstr "__defineSetter__",
   jstr "__lookupGetter__", jstr "__lookupSetter__"]

/-- The mutable state reachable from `SecurityUtils.authAttempts` under
checkRateLimit and clearSensitiveData.

JavaScript property semantics make more than the table's own entries
observable: `this.authAttempts[username]` falls back to the prototype
chain, so a username naming an Object.prototype member yields that truthy
inherited function object, whose `count` and `lastAttempt` fields the
increment branch then mutates in place, and the name `__proto__` yields
the table's current prototype through the inherited accessor — and
assigning to it replaces that prototype instead of creating an entry.

* `own`    — the own properties of the `authAttempts` object itself;
* `mem`    — the `lastAttempt` values the increment branch has written
  onto inherited member objects.  Their `count` field is not recorded: it
  only ever holds undefined or NaN (undefined++ and NaN++ both store NaN),
  and undefined and NaN behave identically in every use the code makes of
  such a value — `x >= 5` and `now - x > w` are false for both, `x` is
  falsy for both, and `x++` stores NaN for both — so the field never
  influences evaluation;
* `opLast` — `Object.prototype.lastAttempt`, written when the increment
  branch runs on the identifier `__proto__` while the prototype is still
  Object.prototype (the matching `Object.prototype.count` write stores NaN
  and is dropped by the same argument as above);
* `proto`  — `some e` when an assignment to `authAttempts["__proto__"]`
  has replaced the table's prototype with the entry object `e`; `none`
  while the prototype is Object.prototype. -/
structure RLSys where
  own : RLTable
  mem : List (JStr × Int)
  opLast : Option Int
  proto : Option RLEntry
deriving DecidableEq, Repr

/-- The attempt state of a freshly loaded module: an empty object literal
and pristine global objects. -/
def emptyRL : RLSys := ⟨[], [], none, none⟩

/-- What the property read `this.authAttempts[username]` evaluates to: an
own entry object; the value of the inherited `__proto__` accessor (the
table's current prototype); a primitive number exposed on the chain by a
replaced prototype or a polluted Object.prototype; an inherited
Object.prototype member object; or undefined. -/
inductive AVal where
  | ownObj (e : RLEntry)
  | protoObj
  | numv (v : Int)
  | memObj (name : JStr)
  | undefined
deriving DecidableEq, Repr

/-- Lookup continued on Object.prototype itself: its member functions, the
`__proto__` accessor, and a polluted `lastAttempt`.  A polluted `count`
reads as NaN, which every branch condition treats exactly as the undefined
of the clean case (see RLSys), so it maps to `undefined` as well. -/
def protoGet (t : RLSys) (id : JStr) : AVal :=
  if objectProtoMembers.contains id then .memObj id
  else if id = jstr "__proto__" then .protoObj
  else if id = jstr "lastAttempt" then
    match t.opLast with
    | some v => .numv v
    | none => .undefined
  else .undefined

/-- The full prototype-chain lookup `this.authAttempts[username]`: the
table's own properties first, then the current prototype — the
`count`/`lastAttempt` data of a replaced prototype entry, else
Object.prototype. -/
def aget (t : RLSys) (id : JStr) : AVal :=
  match lookupE t.own id with
  | some e => .ownObj e
  | none =>
    match t.proto with
    | some e =>
      if id = jstr "count" then .numv (e.count : Int)
      else if id = jstr "lastAttempt" then .numv e.lastAttempt
      else protoGet t id
    | none => protoGet t id

/-- JS falsiness of the looked-up value: undefined is falsy, an object is
truthy, a number is falsy exactly at 0. -/
def AVal.falsy : AVal → Bool
  | .undefined => true
  | .numv v => v == 0
  | _ => false

/-- The read `userAttempts.lastAttempt` for each shape of the value:
`none` stands for a read yielding undefined or NaN.  A primitive number is
wrapped, and the wrapper's chain (Number.prototype, then Object.prototype)
only ever holds a `lastAttempt` through the pollution slot; an inherited
member function likewise falls back from its own written field through
Function.prototype to Object.prototype. -/
def AVal.last (t : RLSys) : AVal → Option Int
  | .ownObj e => some e.lastAttempt
  | .protoObj =>
    match t.proto with
    | some e => some e.lastAttempt
    | none => t.opLast
  | .numv _ => t.opLast
  | .memObj name =>
    match lookupM t.mem name with
    | some v => some v
    | none => t.opLast
  | .undefined => none

/-- The read `userAttempts.count`: only an own entry or a replaced
prototype holds a finite count; every other shape reads undefined or NaN
(see RLSys). -/
def AVal.cnt (t : RLSys) : AVal → Option Nat
  | .ownObj e => some e.count
  | .protoObj =>
    match t.proto with
    | some e => some e.count
    | none => none
  | _ => none

/-- The test `now - userAttempts.lastAttempt > 15 * 60 * 1000`; a
comparison against an undefined or NaN read is false. -/
def windowExpired (now : Int) : Option Int → Bool
  | some la => decide (now - la > 15 * 60 * 1000)
  | none => false

/-- The test `userAttempts.count >= 5`; false on an undefined or NaN
read. -/
def countAtCap : Option Nat → Bool
  | some c => decide (c ≥ 5)
  | none => false

/-- The strict-mode assignment `this.authAttempts[username] = {...}`: the
inherited `__proto__` accessor captures the assignment and replaces the
table's prototype with the right-hand object; every other name creates or
overwrites an own data property (an inherited data property is simply
shadowed). -/
def rlAssign (t : RLSys) (id : JStr) (e : RLEntry) : RLSys :=
  if id = jstr "__proto__" then {t with proto := some e}
  else {t with own := setE t.own id e}

/-- Math.ceil(a / b) for integers (b positive). -/
def ceilDiv (a b : Int) : Int := -((-a).fdiv b)

/-- SecurityUtils.checkRateLimit as a pure function of the attempt state
and the current time, returning the result together with the updated
state.  A `none` result reports the call throwing: the final branch's
`userAttempts.count++` executed with a primitive number as its base throws
a TypeError before writing anything, class bodies being strict mode code.
The four branches mirror the source; where the increment branch's two
field assignments land depends on what the initial property read produced,
so that branch dispatches on the shape of the value.  In the denial branch
the lastAttempt read is a finite number whenever the count read was (only
an own entry or a replaced prototype carries a finite count, and both
carry a finite lastAttempt), so the `none` arm of its match is
unreachable. -/
def checkRateLimitT (t : RLSys) (username : JStr) (now : Int) :
    Option RLResult × RLSys :=
  let userAttempts := aget t username
  if userAttempts.falsy then
    (some {allowed := true, remainingTime := none}, rlAssign t username ⟨1, now⟩)
  else if windowExpired now (userAttempts.last t) then
    (some {allowed := true, remainingTime := none}, rlAssign t username ⟨1, now⟩)
  else if countAtCap (userAttempts.cnt t) then
    (some ⟨false,
       (match userAttempts.last t with
        | some la => some (ceilDiv (15 * 60 * 1000 - (now - la)) 1000)
        | none => none)⟩,
     t)
  else
    match userAttempts with
    | .ownObj e =>
      (some {allowed := true, remainingTime := none},
       {t with own := setE t.own username ⟨e.count + 1, now⟩})
    | .memObj name =>
      (some {allowed := true, remainingTime := none},
       {t with mem := setM t.mem name now})
    | .protoObj =>
      (some {allowed := true, remainingTime := none},
       match t.proto with
       | some e => {t with proto := some ⟨e.count + 1, now⟩}
       | none => {t with opLast := some now})
    | .numv _ => (none, t)
    | .undefined => (some {allowed := true, remainingTime := none}, t)

theorem lookupE_setE_same (tbl : RLTable) (id : JStr) (e : RLEntry) :
    lookupE (setE tbl id e) id = some e := by
  simp [lookupE, setE, List.find?]

/-- Identifiers that collide with properties already reachable from a plain
object literal: the Object.prototype members, the `__proto__` accessor,
and the two entry field names, which a replaced prototype or a polluted
Object.prototype can expose on the chain. -/
def collidingId (id : JStr) : Bool :=
  objectProtoMembers.contains id || id == jstr "__proto__" ||
  id == jstr "count" || id == jstr "lastAttempt"

/-- For a non-colliding identifier the chain lookup degenerates to the own
table. -/
theorem aget_plain (t : RLSys) (id : JStr) (hid : collidingId id = false) :
    aget t id =
      match lookupE t.own id with
      | some e => .ownObj e
      | none => .undefined := by
  simp only [collidingId, Bool.or_eq_false_iff, beq_eq_false_iff_ne, ne_eq]
    at hid
  obtain ⟨⟨⟨hmem, hpr⟩, hcnt⟩, hla⟩ := hid
  rw [aget]
  rcases lookupE t.own id with _ | e
  · have hpg : protoGet t id = .undefined := by
      rw [protoGet, if_neg (by simpa using hmem), if_neg hpr, if_neg hla]
    rcases t.proto with _ | e
    · exact hpg
    · simp only [if_neg hcnt, if_neg hla, hpg]
  · rfl

/-- On a non-colliding identifier checkRateLimit never throws and behaves
as the plain association-table limiter: fresh or expired entries are reset
to count 1, counts below 5 are incremented, counts at 5 inside the open
window are denied without any write; the rest of the state is untouched. -/
theorem checkRateLimitT_plain (t : RLSys) (id : JStr) (now : Int)
    (hid : collidingId id = false) :
    checkRateLimitT t id now =
      match lookupE t.own id with
      | none =>
        (some ⟨true, none⟩, {t with own := setE t.own id ⟨1, now⟩})
      | some e =>
        if now - e.lastAttempt > 15 * 60 * 1000 then
          (some ⟨true, none⟩, {t with own := setE t.own id ⟨1, now⟩})
        else if e.count ≥ 5 then
          (some ⟨false,
            some (ceilDiv (15 * 60 * 1000 - (now - e.lastAttempt)) 1000)⟩, t)
        else
          (some ⟨true, none⟩, {t with own := setE t.own id ⟨e.count + 1, now⟩}) := by
  have hne : id ≠ jstr "__proto__" := by
    simp only [collidingId, Bool.or_eq_false_iff, beq_eq_false_iff_ne, ne_eq]
      at hid
    exact hid.1.1.2
  rw [checkRateLimitT, aget_plain t id hid]
  rcases lookupE t.own id with _ | e
  · simp only [AVal.falsy, if_true, rlAssign, if_neg hne]
  · simp only [AVal.falsy, AVal.last, AVal.cnt, Bool.false_eq_true, if_false,
      windowExpired, countAtCap, rlAssign, if_neg hne]
    by_cases h1 : now - e.lastAttempt > 15 * 60 * 1000
    · simp [h1]
    · by_cases h2 : e.count ≥ 5
      · simp [h1, h2]
      · simp [h1, h2]

end JsModel

namespace JsModel

/-- The IUser record of AuthService. -/
structure User where
  username : JStr
  userId : JStr
  createdAt : Int
deriving DecidableEq, Repr

/-- The session record created by AuthService.createSession. -/
structure Session where
  userId : JStr
  username : JStr
  loginTime : Int
  sessionId : JStr
deriving DecidableEq, Repr

/-- JSON.stringify of one IUser (keys in insertion order, strings of plain
characters needing no escapes). -/
def userJson (u : User) : JStr :=
  jstr "\x7b\"username\":\"" ++ u.username ++ jstr "\",\"userId\":\"" ++ u.userId ++
  jstr "\",\"createdAt\":" ++ intStr 10 u.createdAt ++ jstr "\x7d"

def joinComma : List JStr → JStr
  | [] => []
  | [x] => x
  | x :: xs => x ++ jstr "," ++ joinComma xs

/-- JSON.stringify of the stored user array. -/
def usersToJson (us : List User) : JStr :=
  jstr "[" ++ joinComma (us.map userJson) ++ jstr "]"

/-- JSON.stringify of the session record (keys in insertion order). -/
def sessionToJson (s : Session) : JStr :=
  jstr "\x7b\"userId\":\"" ++ s.userId ++ jstr "\",\"username\":\"" ++ s.username ++
  jstr "\",\"loginTime\":" ++ intStr 10 s.loginTime ++ jstr ",\"sessionId\":\"" ++
  s.sessionId ++ jstr "\"\x7d"

/-- Expect a literal, returning the rest of the input. -/
def dropLit (lit : List Nat) (s : JStr) : Option JStr :=
  match lit, s with
  | [], rest => some rest
  | _ :: _, [] => none
  | l :: ls, c :: cs => if c = l then dropLit ls cs else none

/-- Read a string body up to the closing quote. -/
def takeUntilQuote : JStr → Option (JStr × JStr)
  | [] => none
  | c :: cs =>
    if c = 34 then some ([], cs)
    else (takeUntilQuote cs).map fun p => (c :: p.1, p.2)

/-- JSON.parse of one IUser object, specialised to the canonical shape
produced by `userJson`. -/
def parseUser (s : JStr) : Option (User × JStr) := do
  let s1 ← dropLit (jstr "\x7b\"username\":\"") s
  let (un, s2) ← takeUntilQuote s1
  let s3 ← dropLit (jstr ",\"userId\":\"") s2
  let (uid, s4) ← takeUntilQuote s3
  let s5 ← dropLit (jstr ",\"createdAt\":") s4
  let (t, s6) ← parseIntJ s5
  let s7 ← dropLit (jstr "\x7d") s6
  some ({username := un, userId := uid, createdAt := t}, s7)

/-- Elements of a JSON user array after the opening bracket; the fuel is an
upper bound on the number of elements (one more than the input length
suffices). -/
def parseUsersAux : Nat → JStr → Option (List User)
  | 0, _ => none
  | fuel + 1, s => do
    let (u, r) ← parseUser s
    match r with
    | [] => none
    | c :: cs =>
      if c = 93 then (if cs = [] then some [u] else none)
      else if c = 44 then do
        let us ← parseUsersAux fuel cs
        some (u :: us)
      else none

/-- JSON.parse of the stored user array (canonical shape). -/
def parseUsers (s : JStr) : Option (List User) :=
  match s with
  | [] => none
  | c :: cs =>
    if c = 91 then
      if cs = [93] then some [] else parseUsersAux (cs.length + 1) cs
    else none

/-- JSON.parse of the session record (canonical shape). -/
def parseSession (s : JStr) : Option Session := do
  let s1 ← dropLit (jstr "\x7b\"userId\":\"") s
  let (uid, s2) ← takeUntilQuote s1
  let s3 ← dropLit (jstr ",\"username\":\"") s2
  let (un, s4) ← takeUntilQuote s3
  let s5 ← dropLit (jstr ",\"loginTime\":") s4
  let (t, s6) ← parseIntJ s5
  let s7 ← dropLit (jstr ",\"sessionId\":\"") s6
  let (sid, s8) ← takeUntilQuote s7
  let s9 ← dropLit (jstr "\x7d") s8
  if s9 = [] then
    some {userId := uid, username := un, loginTime := t, sessionId := sid}
  else none

def plainStr (s : JStr) : Bool := s.all plainB

/-- Well-formed stored user: both string fields consist of plain characters,
so its JSON round-trips and its envelope survives btoa. -/
def WFUser (u : User) : Bool := plainStr u.username && plainStr u.userId

def WFUsers (us : List User) : Bool := us.all WFUser

theorem dropLit_append (lit : List Nat) (r : JStr) :
    dropLit lit (lit ++ r) = some r := by
  induction lit with
  | nil => rfl
  | cons l ls ih => simp [dropLit, ih]

theorem takeUntilQuote_append (s r : JStr) (hs : ∀ c ∈ s, c ≠ 34) :
    takeUntilQuote (s ++ 34 :: r) = some (s, r) := by
  induction s with
  | nil => simp [takeUntilQuote]
  | cons c cs ih =>
    have hc : c ≠ 34 := hs c (by simp)
    simp [takeUntilQuote, hc, ih (fun x hx => hs x (by simp [hx]))]

theorem plainStr_no_quote {s : JStr} (h : plainStr s = true) : ∀ c ∈ s, c ≠ 34 := by
  intro c hc
  have := List.all_eq_true.mp h c hc
  rw [plainB_iff] at this
  exact this.2.2.1

theorem parseUser_print (u : User) (r : JStr) (hu : WFUser u = true) :
    parseUser (userJson u ++ r) = some (u, r) := by
  have hu2 := hu
  simp only [WFUser, Bool.and_eq_true] at hu2
  obtain ⟨hun, huid⟩ := hu2
  have l2 : jstr "\",\"userId\":\"" = 34 :: jstr ",\"userId\":\"" := rfl
  have l3 : jstr "\",\"createdAt\":" = 34 :: jstr ",\"createdAt\":" := rfl
  have l4 : jstr "\x7d" = [125] := rfl
  have hsplit : userJson u ++ r =
      jstr "\x7b\"username\":\"" ++ (u.username ++ 34 ::
        (jstr ",\"userId\":\"" ++ (u.userId ++ 34 ::
          (jstr ",\"createdAt\":" ++ (intStr 10 u.createdAt ++ ([125] ++ r)))))) := by
    rw [userJson, l2, l3, l4]
    simp [List.append_assoc]
  rw [hsplit, parseUser]
  have hint : parseIntJ (intStr 10 u.createdAt ++ ([125] ++ r)) =
      some (u.createdAt, [125] ++ r) := by
    apply parseIntJ_print
    intro c hc
    simp only [List.cons_append, List.head?_cons, Option.some.injEq] at hc
    omega
  simp only [dropLit_append, Option.bind_eq_bind, Option.some_bind,
    takeUntilQuote_append _ _ (plainStr_no_quote hun),
    takeUntilQuote_append _ _ (plainStr_no_quote huid), hint]
  rw [l4, dropLit_append]
  rfl

end JsModel

namespace JsModel

theorem joinComma_cons₂ (a b : JStr) (rest : List JStr) :
    joinComma (a :: b :: rest) = a ++ jstr "," ++ joinComma (b :: rest) := rfl

theorem userJson_len (u : User) : 1 ≤ (userJson u).length := by
  rw [userJson]
  simp [jstr]

theorem joinComma_len (us : List User) (h : us ≠ []) :
    us.length ≤ (joinComma (us.map userJson)).length := by
  induction us with
  | nil => simp
  | cons u rest ih =>
    cases rest with
    | nil =>
      simpa using userJson_len u
    | cons v vs =>
      simp only [List.map_cons]
      rw [joinComma_cons₂]
      have := ih (by simp)
      have hu := userJson_len u
      simp only [List.length_append, List.length_cons]
      simp at this ⊢
      omega

theorem WFUsers_cons {u : User} {rest : List User}
    (h : WFUsers (u :: rest) = true) : WFUser u = true ∧ WFUsers rest = true := by
  simpa [WFUsers] using h

theorem parseUsersAux_print (us : List User) (h : us ≠ []) :
    ∀ fuel, us.length ≤ fuel → WFUsers us = true →
    parseUsersAux fuel (joinComma (us.map userJson) ++ jstr "]") = some us := by
  induction us with
  | nil => exact absurd rfl h
  | cons u rest ih =>
    intro fuel hf hwf
    obtain ⟨hu, hrest⟩ := WFUsers_cons hwf
    cases fuel with
    | zero => simp at hf
    | succ f =>
      rw [parseUsersAux]
      cases rest with
      | nil =>
        have hj : joinComma ([u].map userJson) ++ jstr "]" = userJson u ++ [93] := rfl
        rw [hj, parseUser_print u [93] hu]
        simp
      | cons v vs =>
        have hj : joinComma ((u :: v :: vs).map userJson) ++ jstr "]" =
            userJson u ++ (44 :: (joinComma ((v :: vs).map userJson) ++ jstr "]")) := by
          simp only [List.map_cons]
          rw [joinComma_cons₂]
          have hcomma : jstr "," = [44] := rfl
          rw [hcomma]
          simp [List.append_assoc]
        rw [hj, parseUser_print u _ hu]
        have hrec := ih (by simp) f (by simp at hf ⊢; omega) hrest
        simp only [List.map_cons] at hrec
        simp [hrec]

/-- Round trip of the stored user array through its JSON form. -/
theorem parseUsers_print (us : List User) (hwf : WFUsers us = true) :
    parseUsers (usersToJson us) = some us := by
  cases us with
  | nil => rfl
  | cons u rest =>
    have hshape : usersToJson (u :: rest) =
        91 :: (joinComma ((u :: rest).map userJson) ++ [93]) := by
      rw [usersToJson]
      rfl
    rw [hshape, parseUsers]
    have hne : joinComma ((u :: rest).map userJson) ≠ [] := by
      intro hnil
      have := joinComma_len (u :: rest) (by simp)
      rw [hnil] at this
      simp at this
    have hcs : ¬(joinComma ((u :: rest).map userJson) ++ [93] = [93]) := by
      intro hcontra
      apply hne
      have := congrArg List.length hcontra
      simp at this
      simpa using this
    simp only [if_pos rfl, if_neg hcs]
    apply parseUsersAux_print (u :: rest) (by simp)
    · have := joinComma_len (u :: rest) (by simp)
      simp at this ⊢
      omega
    · exact hwf

theorem plainStr_lt_256 {s : JStr} (h : plainStr s = true) : ∀ c ∈ s, c < 256 := by
  intro c hc
  have := List.all_eq_true.mp h c hc
  rw [plainB_iff] at this
  omega

theorem userJson_bytes (u : User) (hu : WFUser u = true) :
    ∀ c ∈ userJson u, c < 256 := by
  have hu2 := hu
  simp only [WFUser, Bool.and_eq_true] at hu2
  obtain ⟨hun, huid⟩ := hu2
  intro c hc
  rw [userJson] at hc
  simp only [List.append_assoc, List.mem_append] at hc
  rcases hc with h | h | h | h | h | h | h
  · revert h; revert c; decide
  · exact plainStr_lt_256 hun c h
  · revert h; revert c; decide
  · exact plainStr_lt_256 huid c h
  · revert h; revert c; decide
  · have := intStr_lt_128 10 u.createdAt (by omega) c h
    omega
  · revert h; revert c; decide

theorem joinComma_bytes (us : List User) (hwf : WFUsers us = true) :
    ∀ c ∈ joinComma (us.map userJson), c < 256 := by
  induction us with
  | nil => simp [joinComma]
  | cons u rest ih =>
    obtain ⟨hu, hrest⟩ := WFUsers_cons hwf
    cases rest with
    | nil =>
      intro c hc
      exact userJson_bytes u hu c hc
    | cons v vs =>
      simp only [List.map_cons]
      rw [joinComma_cons₂]
      intro c hc
      simp only [List.append_assoc, List.mem_append] at hc
      rcases hc with h | h | h
      · exact userJson_bytes u hu c h
      · revert h; revert c; decide
      · exact ih hrest c h

theorem usersJson_bytes (us : List User) (hwf : WFUsers us = true) :
    ∀ c ∈ usersToJson us, c < 256 := by
  intro c hc
  rw [usersToJson] at hc
  simp only [List.append_assoc, List.mem_append] at hc
  rcases hc with h | h | h
  · revert h; revert c; decide
  · exact joinComma_bytes us hwf c h
  · revert h; revert c; decide

theorem sessionJson_bytes (s : Session) (h1 : plainStr s.userId = true)
    (h2 : plainStr s.username = true) (h3 : plainStr s.sessionId = true) :
    ∀ c ∈ sessionToJson s, c < 256 := by
  intro c hc
  rw [sessionToJson] at hc
  simp only [List.append_assoc, List.mem_append] at hc
  rcases hc with h | h | h | h | h | h | h | h
  · revert h; revert c; decide
  · exact plainStr_lt_256 h1 c h
  · revert h; revert c; decide
  · exact plainStr_lt_256 h2 c h
  · revert h; revert c; decide
  · have := intStr_lt_128 10 s.loginTime (by omega) c h
    omega
  · revert h; revert c; decide
  · rcases h with h | h
    · exact plainStr_lt_256 h3 c h
    · revert h; revert c; decide

end JsModel

namespace JsModel

/-- The system state: AsyncStorage contents, the in-memory rate-limit
state reachable from SecurityUtils.authAttempts, and the clock supplying
successive Date.now() readings (reading `tick` indexes into `time`). -/
structure Sys where
  storage : List (JStr × JStr)
  authAttempts : RLSys
  time : Nat → Int
  tick : Nat

/-- One Date.now() call: read the clock and advance it. -/
def dateNow (s : Sys) : Int × Sys := (s.time s.tick, {s with tick := s.tick + 1})

/-- AsyncStorage.getItem: the current binding of the key. -/
def getItem (st : List (JStr × JStr)) (k : JStr) : Option JStr :=
  (st.find? fun p => p.1 == k).map (·.2)

/-- AsyncStorage.setItem, modelled by shadowing the previous binding. -/
def setItem (st : List (JStr × JStr)) (k v : JStr) : List (JStr × JStr) :=
  (k, v) :: st

def secKey (k : JStr) : JStr := jstr "secure_" ++ k

def keyKey (k : JStr) : JStr := jstr "key_" ++ k

/-- The transform key minted at time `t`: 'RN_APP_' + t.toString(36). -/
def rnKey (t : Int) : JStr := jstr "RN_APP_" ++ intStr 36 t

/-- SecurityUtils.getEncryptionKey. -/
def getEncryptionKey (s : Sys) : JStr × Sys :=
  let (t, s1) := dateNow s
  (rnKey t, s1)

/-- SecurityUtils.secureStore: encrypt under a fresh time-derived key, write
the ciphertext under secure_{key} and the base64 of the transform key under
key_{key}.  `false` reports the exception rethrown to the caller; writes
that happened before the failure persist, as in the source. -/
def secureStore (s : Sys) (key value : JStr) : Bool × Sys :=
  let (ek, s1) := getEncryptionKey s
  match encrypt value ek with
  | none => (false, s1)
  | some encryptedValue =>
    let s2 := {s1 with storage := setItem s1.storage (secKey key) encryptedValue}
    match btoa ek with
    | none => (false, s2)
    | some bk => (true, {s2 with storage := setItem s2.storage (keyKey key) bk})

/-- SecurityUtils.secureRetrieve: read both halves; a missing or empty half
gives null, as does a key that fails to decode; decrypt never throws (its
own catch returns the empty string). -/
def secureRetrieve (s : Sys) (key : JStr) : Option JStr :=
  match getItem s.storage (secKey key), getItem s.storage (keyKey key) with
  | some encryptedValue, some keyHash =>
    if encryptedValue = [] ∨ keyHash = [] then none
    else
      match atob keyHash with
      | none => none
      | some encryptionKey => some (decrypt encryptedValue encryptionKey)
  | _, _ => none

/-- SecurityUtils.checkRateLimit on the system state; `none` reports the
call throwing. -/
def checkRateLimit (s : Sys) (username : JStr) : Option RLResult × Sys :=
  let (now, s1) := dateNow s
  let (res, tbl) := checkRateLimitT s1.authAttempts username now
  (res, {s1 with authAttempts := tbl})

/-- SecurityUtils.clearSensitiveData: `this.authAttempts = {}` replaces
the table by a fresh object literal — no own entries, prototype back to
Object.prototype — while whatever the increment branch wrote onto the
inherited member objects or onto Object.prototype itself persists: those
are global objects, not part of the table. -/
def clearSensitiveData (s : Sys) : Sys :=
  {s with authAttempts :=
    {own := [], mem := s.authAttempts.mem, opLast := s.authAttempts.opLast,
     proto := none}}

/-- SecurityUtils.generateSecureUserId on the system state. -/
def generateSecureUserId (s : Sys) (username : JStr) : Option JStr × Sys :=
  let (t, s1) := dateNow s
  (genIdAt username t, s1)

def USERS_STORAGE_KEY : JStr := jstr "app_users"

def SESSION_STORAGE_KEY : JStr := jstr "user_session"

/-- The caller-facing result shape of register and authenticate. -/
structure AuthResult where
  success : Bool
  error : Option JStr
  user : Option User
deriving DecidableEq, Repr

structure Creds where
  username : JStr
  password : JStr

def regFailMsg : JStr := jstr "Registration failed. Please try again."

def weakMsg : JStr := jstr "Password is too common. Please choose a stronger password."

def existsMsg : JStr := jstr "Username already exists"

def invalidFormatMsg : JStr := jstr "Invalid username or password format"

def invalidCredMsg : JStr := jstr "Invalid username or password"

def authFailMsg : JStr := jstr "Authentication failed. Please try again."

/-- errors.join(', '). -/
def joinErrs : List JStr → JStr
  | [] => []
  | [x] => x
  | x :: xs => x ++ jstr ", " ++ joinErrs xs

/-- The throttle message, with Math.ceil(remainingTime / 60) minutes. -/
def tooManyMsg (remainingTime : Int) : JStr :=
  jstr "Too many failed attempts. Please try again in " ++
  intStr 10 (ceilDiv remainingTime 60) ++ jstr " minutes."

/-- AuthService.getStoredUsers: parse failures (and non-array contents,
whose later uses would throw into the callers catch) give the empty list. -/
def getStoredUsers (s : Sys) : List User :=
  match secureRetrieve s USERS_STORAGE_KEY with
  | none => []
  | some usersData => (parseUsers usersData).getD []

/-- AuthService.registerUser. -/
def registerUser (s : Sys) (credentials : Creds) : AuthResult × Sys :=
  let usernameValidation := validateAndSanitizeInput credentials.username .username
  let passwordValidation := validateAndSanitizeInput credentials.password .password
  if !usernameValidation.isValid then
    ({success := false, error := some (joinErrs usernameValidation.errors),
      user := none}, s)
  else if !passwordValidation.isValid then
    ({success := false, error := some (joinErrs passwordValidation.errors),
      user := none}, s)
  else if isWeakPassword credentials.password then
    ({success := false, error := some weakMsg, user := none}, s)
  else
    let existingUsers := getStoredUsers s
    if existingUsers.any fun user => user.username == usernameValidation.sanitized then
      ({success := false, error := some existsMsg, user := none}, s)
    else
      let (oid, s1) := generateSecureUserId s usernameValidation.sanitized
      match oid with
      | none => ({success := false, error := some regFailMsg, user := none}, s1)
      | some uid =>
        let (t2, s2) := dateNow s1
        let user : User :=
          {username := usernameValidation.sanitized, userId := uid, createdAt := t2}
        match hashPassword passwordValidation.sanitized with
        | none => ({success := false, error := some regFailMsg, user := none}, s2)
        | some passwordHash =>
          let (ok1, s3) := secureStore s2 (jstr "pwd_" ++ user.userId) passwordHash
          if !ok1 then
            ({success := false, error := some regFailMsg, user := none}, s3)
          else
            let updatedUsers := existingUsers ++ [user]
            let (ok2, s4) := secureStore s3 USERS_STORAGE_KEY (usersToJson updatedUsers)
            if !ok2 then
              ({success := false, error := some regFailMsg, user := none}, s4)
            else ({success := true, error := none, user := some user}, s4)

/-- AuthService.createSession: loginTime, then the timestamp mixed into the
session id argument, then the timestamp drawn inside generateSecureUserId. -/
def createSession (s : Sys) (user : User) : Bool × Sys :=
  let (loginTime, s1) := dateNow s
  let (t2, s2) := dateNow s1
  let (osid, s3) := generateSecureUserId s2 (user.username ++ intStr 10 t2)
  match osid with
  | none => (false, s3)
  | some sessionId =>
    let sessionData : Session :=
      {userId := user.userId, username := user.username, loginTime := loginTime,
       sessionId := sessionId}
    secureStore s3 SESSION_STORAGE_KEY (sessionToJson sessionData)

/-- AuthService.authenticateUser. -/
def authenticateUser (s : Sys) (credentials : Creds) : AuthResult × Sys :=
  let usernameValidation := validateAndSanitizeInput credentials.username .username
  let passwordValidation := validateAndSanitizeInput credentials.password .password
  if !usernameValidation.isValid || !passwordValidation.isValid then
    ({success := false, error := some invalidFormatMsg, user := none}, s)
  else
    let (rateLimit, s1) := checkRateLimit s usernameValidation.sanitized
    match rateLimit with
    | none => ({success := false, error := some authFailMsg, user := none}, s1)
    | some rl =>
      if !rl.allowed then
        ({success := false, error := some (tooManyMsg (rl.remainingTime.getD 0)),
          user := none}, s1)
      else
        let users := getStoredUsers s1
        match users.find? fun u => u.username == usernameValidation.sanitized with
        | none => ({success := false, error := some invalidCredMsg, user := none}, s1)
        | some user =>
          let storedPasswordHash := secureRetrieve s1 (jstr "pwd_" ++ user.userId)
          match hashPassword passwordValidation.sanitized with
          | none => ({success := false, error := some authFailMsg, user := none}, s1)
          | some inputPasswordHash =>
            if storedPasswordHash ≠ some inputPasswordHash then
              ({success := false, error := some invalidCredMsg, user := none}, s1)
            else
              let (ok, s2) := createSession s1 user
              if !ok then
                ({success := false, error := some authFailMsg, user := none}, s2)
              else ({success := true, error := none, user := some user}, s2)

/-- AuthService.logout: store the empty session, then clear the attempt
table (skipped when the store threw, as the source catch swallows it). -/
def logout (s : Sys) : Sys :=
  let (ok, s1) := secureStore s SESSION_STORAGE_KEY []
  if ok then clearSensitiveData s1 else s1

/-- AuthService.getCurrentSession. -/
def getCurrentSession (s : Sys) : Option User × Sys :=
  match secureRetrieve s SESSION_STORAGE_KEY with
  | none => (none, s)
  | some sessionData =>
    match parseSession sessionData with
    | none => (none, s)
    | some session =>
      let (now, s1) := dateNow s
      if now - session.loginTime > 24 * 60 * 60 * 1000 then
        (none, logout s1)
      else
        (some {username := session.username, userId := session.userId,
               createdAt := session.loginTime}, s1)

end JsModel

namespace JsModel

theorem getItem_setItem_same (st : List (JStr × JStr)) (k v : JStr) :
    getItem (setItem st k v) k = some v := by
  simp [getItem, setItem, List.find?]

theorem getItem_setItem_ne (st : List (JStr × JStr)) (k k' v : JStr)
    (h : k' ≠ k) : getItem (setItem st k v) k' = getItem st k' := by
  rw [getItem, setItem, List.find?_cons_of_neg, getItem]
  simp only [beq_iff_eq]
  exact fun hc => h (hc.symm)

theorem secKey_inj {a b : JStr} (h : secKey a = secKey b) : a = b := by
  simpa [secKey] using h

theorem keyKey_inj {a b : JStr} (h : keyKey a = keyKey b) : a = b := by
  simpa [keyKey] using h

theorem secKey_ne_keyKey (a b : JStr) : secKey a ≠ keyKey b := by
  intro h
  have h1 : secKey a = 115 :: (jstr "ecure_" ++ a) := rfl
  have h2 : keyKey b = 107 :: (jstr "ey_" ++ b) := rfl
  rw [h1, h2] at h
  simp at h

theorem rnKey_bytes (t : Int) : ∀ c ∈ rnKey t, c < 256 := by
  have hlit : ∀ c ∈ jstr "RN_APP_", c < 256 := by decide
  intro c hc
  rw [rnKey] at hc
  rcases List.mem_append.mp hc with h | h
  · exact hlit c h
  · have := intStr_lt_128 36 t (by omega) c h
    omega

theorem rnKey_ne_nil (t : Int) : rnKey t ≠ [] := by
  rw [rnKey]
  simp [jstr]

theorem xorWith_ne_nil {k v : JStr} (hv : v ≠ []) : xorWith k v ≠ [] := by
  cases v with
  | nil => exact absurd rfl hv
  | cons c cs => simp [xorWith, xorFrom]

/-- secureStore with a byte-ranged value always succeeds; the stored pair
reads back as the value (or as absent when the value was empty), every
other logical key is untouched, and so are the attempt table and the clock
function (one reading is consumed). -/
theorem secureStore_spec (s : Sys) (k v : JStr) (hv : ∀ c ∈ v, c < 256) :
    ∃ s', secureStore s k v = (true, s') ∧
      secureRetrieve s' k = (if v = [] then none else some v) ∧
      (v = [] → getItem s'.storage (secKey k) = some []) ∧
      (∀ k', k' ≠ k → secureRetrieve s' k' = secureRetrieve s k') ∧
      s'.authAttempts = s.authAttempts ∧ s'.time = s.time ∧ s'.tick = s.tick + 1 := by
  have hkb := rnKey_bytes (s.time s.tick)
  obtain ⟨ct, hct, hatct, -, hctne⟩ :=
    atob_btoa (xorWith (rnKey (s.time s.tick)) v) (xorFrom_lt_256 hkb hv 0)
  obtain ⟨bk, hbk, hatbk, -, hbkne⟩ := atob_btoa (rnKey (s.time s.tick)) hkb
  have hbkne2 : bk ≠ [] := hbkne (rnKey_ne_nil _)
  refine ⟨{storage := setItem (setItem s.storage (secKey k) ct) (keyKey k) bk,
           authAttempts := s.authAttempts, time := s.time, tick := s.tick + 1},
    ?_, ?_, ?_, ?_, rfl, rfl, rfl⟩
  · rw [secureStore]
    simp only [getEncryptionKey, dateNow, encrypt, hct, hbk]
  · rw [secureRetrieve]
    simp only [getItem_setItem_ne _ (keyKey k) (secKey k) _ (secKey_ne_keyKey k k),
      getItem_setItem_same]
    by_cases hvnil : v = []
    · subst hvnil
      have hctnil : ct = [] := by
        have hxw : xorWith (rnKey (s.time s.tick)) [] = [] := rfl
        rw [hxw] at hct
        cases hct
        rfl
      rw [hctnil]
      simp
    · have hctne2 : ct ≠ [] := hctne (xorWith_ne_nil hvnil)
      have hd : decrypt ct (rnKey (s.time s.tick)) = v := by
        unfold decrypt
        rw [hatct]
        exact xorWith_xorWith _ v
      rw [if_neg (by simp [hctne2, hbkne2]), hatbk, if_neg hvnil]
      show some (decrypt ct (rnKey (s.time s.tick))) = some v
      rw [hd]
  · intro hvnil
    subst hvnil
    have hctnil : ct = [] := by
      have hxw : xorWith (rnKey (s.time s.tick)) [] = [] := rfl
      rw [hxw] at hct
      cases hct
      rfl
    rw [getItem_setItem_ne _ (keyKey k) (secKey k) _ (secKey_ne_keyKey k k),
      getItem_setItem_same, hctnil]
  · intro k' hk
    have hA : getItem (setItem (setItem s.storage (secKey k) ct) (keyKey k) bk)
        (secKey k') = getItem s.storage (secKey k') := by
      rw [getItem_setItem_ne _ _ _ _ (secKey_ne_keyKey k' k),
        getItem_setItem_ne _ _ _ _ (fun hc => hk (secKey_inj hc))]
    have hB : getItem (setItem (setItem s.storage (secKey k) ct) (keyKey k) bk)
        (keyKey k') = getItem s.storage (keyKey k') := by
      rw [getItem_setItem_ne _ _ _ _ (fun hc => hk (keyKey_inj hc)),
        getItem_setItem_ne _ _ _ _ (fun hc => secKey_ne_keyKey k k' hc.symm)]
    rw [secureRetrieve, secureRetrieve]
    show (match getItem (setItem (setItem s.storage (secKey k) ct) (keyKey k) bk)
        (secKey k'), getItem (setItem (setItem s.storage (secKey k) ct)
        (keyKey k) bk) (keyKey k') with
      | some encryptedValue, some keyHash => _
      | _, _ => _) = _
    rw [hA, hB]

end JsModel

namespace JsModel

theorem ceilDiv_eq_ediv (a b : Int) (hb : 0 ≤ b) : ceilDiv a b = -(-a / b) := by
  rw [ceilDiv, Int.fdiv_eq_ediv _ hb]

/-- C3 counterexample: with the printable-ASCII plaintext "A" and the
non-empty key "Ā" (one character, code 256), encrypt throws inside btoa
(the xored code unit 321 exceeds 255), so no ciphertext exists and the
round-trip equation fails at this input. -/
theorem C3_counterexample :
    (∀ c ∈ jstr "A", 32 ≤ c ∧ c ≤ 126) ∧ jstr "Ā" ≠ [] ∧
    encrypt (jstr "A") (jstr "Ā") = none := by decide

/-- C3 (amended): for printable-ASCII plaintext and a non-empty key whose
characters fit in a byte, encryption succeeds and decryption inverts it. -/
theorem C3_roundtrip (v k : JStr) (hv : ∀ c ∈ v, 32 ≤ c ∧ c ≤ 126)
    (_hk : k ≠ []) (hk255 : ∀ c ∈ k, c ≤ 255) :
    ∃ ct, encrypt v k = some ct ∧ decrypt ct k = v := by
  apply decrypt_encrypt
  · intro c hc
    have := hv c hc
    omega
  · intro c hc
    have := hk255 c hc
    omega

theorem C3_roundtrip_witness :
    ∃ ct, encrypt (jstr "Hello") (jstr "key") = some ct ∧
      decrypt ct (jstr "key") = jstr "Hello" :=
  C3_roundtrip (jstr "Hello") (jstr "key") (by decide) (by decide) (by decide)

/-- C5 counterexample: on the empty password the source short-circuits to
the bare string "0", while the described pipeline (salt length 13, base 36,
base64) yields base64("d") = "ZA==". -/
theorem C5_counterexample :
    hashPassword (jstr "") = some (jstr "0") ∧
    specDigest (jstr "") = some (jstr "ZA==") ∧
    jstr "0" ≠ jstr "ZA==" := by decide

/-- C5 (amended): on every non-empty password the digest is exactly the
specified pipeline: iterate hash*31 + charCode in wrapped 32-bit signed
arithmetic (the per-step equivalence with the source form
(hash << 5) - hash + char is hashStep_eq_specStep), add the salt length 13,
base-36 encode, base64-encode.  Determinism holds for every password, the
digest being a pure function of its argument. -/
theorem C5_hashPassword (p : JStr) (hp : p ≠ []) :
    hashPassword p = specDigest p := by
  rw [hashPassword, specDigest]
  rw [if_neg (by simpa using hp)]
  have hfun : hashStep = specStep :=
    funext fun h => funext fun c => hashStep_eq_specStep h c
  have hsalt : ((salt.length : Nat) : Int) = 13 := rfl
  rw [hfun, hsalt]

theorem C5_hashPassword_witness :
    hashPassword (jstr "abc") = specDigest (jstr "abc") :=
  C5_hashPassword (jstr "abc") (by decide)

/-- C9 counterexample: two successive calls with identical username at two
distinct wall-clock instants (1127672190541 and 1186433764313, both
realistic epoch milliseconds) return the same user id: the 32-bit digests
of username + timestamp collide, so incorporating the time does not make
the ids distinct. -/
theorem C9_counterexample :
    (1127672190541 : Int) ≠ 1186433764313 ∧
    (generateSecureUserId
        {storage := [], authAttempts := emptyRL,
         time := fun i => if i = 0 then 1127672190541 else 1186433764313,
         tick := 0} (jstr "demo_user")).1 ≠ none ∧
    (generateSecureUserId
        {storage := [], authAttempts := emptyRL,
         time := fun i => if i = 0 then 1127672190541 else 1186433764313,
         tick := 0} (jstr "demo_user")).1 =
      (generateSecureUserId
        (generateSecureUserId
          {storage := [], authAttempts := emptyRL,
           time := fun i => if i = 0 then 1127672190541 else 1186433764313,
           tick := 0} (jstr "demo_user")).2 (jstr "demo_user")).1 := by
  refine ⟨by decide, ?_, ?_⟩ <;> decide

/-- C9 (amended): the id is a deterministic function of the username and
the current timestamp, namely the literal tag followed by the first 12
characters of the digest of username + timestamp; two calls return equal
ids exactly when those truncated digests are equal, so equal timestamps
(calls within one millisecond) always collide and distinct timestamps may. -/
theorem C9_genIdAt (u : JStr) (t1 t2 : Int) :
    genIdAt u t1 = genIdAt u t2 ↔
    (hashPassword (u ++ intStr 10 t1)).map (List.take 12) =
    (hashPassword (u ++ intStr 10 t2)).map (List.take 12) := by
  obtain ⟨d1, hd1, -, -⟩ := hashPassword_some (u ++ intStr 10 t1)
  obtain ⟨d2, hd2, -, -⟩ := hashPassword_some (u ++ intStr 10 t2)
  rw [genIdAt, genIdAt, hd1, hd2]
  simp

/-- C8 counterexample: a call made while the lockout is in effect (count 5,
window still open) returns a denial and leaves the state exactly as it
was: the entry for the identity is neither created, reset, nor updated,
and in particular lastAttempt keeps its old value instead of now. -/
theorem C8_counterexample :
    (checkRateLimitT ⟨[(jstr "alice", ⟨5, 0⟩)], [], none, none⟩
      (jstr "alice") 1000).1 = some ⟨false, some 899⟩ ∧
    (checkRateLimitT ⟨[(jstr "alice", ⟨5, 0⟩)], [], none, none⟩
      (jstr "alice") 1000).2 =
      ⟨[(jstr "alice", ⟨5, 0⟩)], [], none, none⟩ := by decide

/-- The count the recorded entry carries after an allowed call on a
non-colliding identifier: 1 on a fresh or expired window, the incremented
count otherwise. -/
def nextCount (tbl : RLTable) (id : JStr) (now : Int) : Nat :=
  match lookupE tbl id with
  | none => 1
  | some e => if now - e.lastAttempt > 15 * 60 * 1000 then 1 else e.count + 1

/-- A call whose result is a denial writes nothing at all, whatever the
identifier and the state. -/
theorem checkRateLimitT_denied_frame (t : RLSys) (id : JStr) (now : Int)
    (r : RLResult) (hr : (checkRateLimitT t id now).1 = some r)
    (hall : r.allowed = false) : (checkRateLimitT t id now).2 = t := by
  simp only [checkRateLimitT] at hr ⊢
  by_cases hf : (aget t id).falsy
  · rw [if_pos hf] at hr
    simp only [Option.some.injEq] at hr
    rw [← hr] at hall
    simp at hall
  · rw [if_neg hf] at hr ⊢
    by_cases hw : windowExpired now ((aget t id).last t)
    · rw [if_pos hw] at hr
      simp only [Option.some.injEq] at hr
      rw [← hr] at hall
      simp at hall
    · rw [if_neg hw] at hr ⊢
      by_cases hc : countAtCap ((aget t id).cnt t)
      · rw [if_pos hc]
      · rw [if_neg hc] at hr ⊢
        rcases haget : aget t id with e | _ | v | name | _ <;>
          rw [haget] at hr <;>
          simp only [Option.some.injEq] at hr <;>
          (rw [← hr] at hall; simp at hall)

/-- C8 (amended): for an identifier that does not collide with the
prototype chain, checkRateLimit mutates the own attempt table exactly on
the allowed calls, recording {count := nextCount, lastAttempt := now}
there; and a denied call — for every identifier and every state — returns
without writing anything at all.  (An allowed call on a colliding
identifier records no table entry: the increment lands on the inherited
object the lookup produced, as C2's counterexample shows concretely.) -/
theorem C8_mutation (t : RLSys) (id : JStr) (now : Int) :
    (collidingId id = false →
      (checkRateLimitT t id now).2 =
        if (checkRateLimitT t id now).1 = some ⟨true, none⟩ then
          {t with own := setE t.own id ⟨nextCount t.own id now, now⟩}
        else t) ∧
    (∀ r, (checkRateLimitT t id now).1 = some r → r.allowed = false →
      (checkRateLimitT t id now).2 = t) := by
  refine ⟨?_, fun r hr hall => checkRateLimitT_denied_frame t id now r hr hall⟩
  intro hid
  rw [checkRateLimitT_plain t id now hid, nextCount]
  rcases lookupE t.own id with _ | e
  · simp
  · by_cases h1 : 900000 < now - e.lastAttempt
    · simp [h1]
    · by_cases h2 : 5 ≤ e.count
      · simp [h1, h2]
      · simp [h1, h2]

theorem C8_mutation_witness :
    (checkRateLimitT emptyRL (jstr "alice") 0).2 =
      if (checkRateLimitT emptyRL (jstr "alice") 0).1 = some ⟨true, none⟩ then
        {emptyRL with own := setE emptyRL.own (jstr "alice") ⟨nextCount emptyRL.own (jstr "alice") 0, 0⟩}
      else emptyRL :=
  (C8_mutation emptyRL (jstr "alice") 0).1 (by decide)

/-- C2 counterexample: the identifier "toString" passes the username
validator yet is never seen as fresh by the limiter: the property read
finds the inherited, truthy Object.prototype.toString function, so the
count-1 branch never runs; the function's count field only ever holds NaN
and never reaches the cap, so the sixth call within 15 minutes of the
fifth is still allowed rather than denied, and the table's own entries
are never created or touched. -/
theorem C2_counterexample :
    (validateAndSanitizeInput (jstr "toString") .username).isValid = true ∧
    (let r1 := checkRateLimitT emptyRL (jstr "toString") 0
     let r2 := checkRateLimitT r1.2 (jstr "toString") 1
     let r3 := checkRateLimitT r2.2 (jstr "toString") 2
     let r4 := checkRateLimitT r3.2 (jstr "toString") 3
     let r5 := checkRateLimitT r4.2 (jstr "toString") 4
     let r6 := checkRateLimitT r5.2 (jstr "toString") 5
     r1.1 = some ⟨true, none⟩ ∧ r2.1 = some ⟨true, none⟩ ∧
     r3.1 = some ⟨true, none⟩ ∧ r4.1 = some ⟨true, none⟩ ∧
     r5.1 = some ⟨true, none⟩ ∧ r6.1 = some ⟨true, none⟩ ∧
     r6.2.own = []) := by decide

/-- C2 (amended): for an identifier that does not collide with the
prototype chain and that the limiter has not seen, five successive checks
are all allowed; a sixth one made within 15 minutes of the last recorded
attempt (the gaps staying inside the window so no reset intervenes) is
denied with remainingTime = ceil((15 min - (now - lastAttempt)) / 1000),
which is positive, and without modifying anything; and for any recorded
entry of such an identifier, a check made more than 15 minutes after its
lastAttempt is allowed again with the entry reset to
{count := 1, lastAttempt := now}. -/
theorem C2_rateLimit (t : RLSys) (id : JStr) (t1 t2 t3 t4 t5 t6 : Int)
    (hid : collidingId id = false)
    (h0 : lookupE t.own id = none)
    (h12 : t2 - t1 ≤ 900000) (h23 : t3 - t2 ≤ 900000)
    (h34 : t4 - t3 ≤ 900000) (h45 : t5 - t4 ≤ 900000)
    (h56 : t5 ≤ t6) (h56b : t6 - t5 < 900000) :
    let r1 := checkRateLimitT t id t1
    let r2 := checkRateLimitT r1.2 id t2
    let r3 := checkRateLimitT r2.2 id t3
    let r4 := checkRateLimitT r3.2 id t4
    let r5 := checkRateLimitT r4.2 id t5
    let r6 := checkRateLimitT r5.2 id t6
    r1.1 = some ⟨true, none⟩ ∧ r2.1 = some ⟨true, none⟩ ∧
    r3.1 = some ⟨true, none⟩ ∧ r4.1 = some ⟨true, none⟩ ∧
    r5.1 = some ⟨true, none⟩ ∧
    r6.1 = some ⟨false, some (ceilDiv (900000 - (t6 - t5)) 1000)⟩ ∧
    (∀ r rem, r6.1 = some r → r.remainingTime = some rem → 0 < rem) ∧
    r6.2 = r5.2 ∧
    (∀ tb e t', lookupE tb.own id = some e → t' - e.lastAttempt > 900000 →
      checkRateLimitT tb id t' =
        (some ⟨true, none⟩, {tb with own := setE tb.own id ⟨1, t'⟩})) := by
  intro r1 r2 r3 r4 r5 r6
  have e1 : r1 = (some ⟨true, none⟩, {t with own := setE t.own id ⟨1, t1⟩}) := by
    rw [show r1 = checkRateLimitT t id t1 from rfl,
      checkRateLimitT_plain t id t1 hid, h0]
  have e2 : r2 = (some ⟨true, none⟩,
      {r1.2 with own := setE r1.2.own id ⟨2, t2⟩}) := by
    rw [show r2 = checkRateLimitT r1.2 id t2 from rfl,
      checkRateLimitT_plain r1.2 id t2 hid, e1]
    rw [lookupE_setE_same]
    simp only [if_neg (by omega : ¬(t2 - t1 > 15 * 60 * 1000)),
      if_neg (by omega : ¬(1 ≥ 5))]
  have e3 : r3 = (some ⟨true, none⟩,
      {r2.2 with own := setE r2.2.own id ⟨3, t3⟩}) := by
    rw [show r3 = checkRateLimitT r2.2 id t3 from rfl,
      checkRateLimitT_plain r2.2 id t3 hid, e2]
    rw [lookupE_setE_same]
    simp only [if_neg (by omega : ¬(t3 - t2 > 15 * 60 * 1000)),
      if_neg (by omega : ¬(2 ≥ 5))]
  have e4 : r4 = (some ⟨true, none⟩,
      {r3.2 with own := setE r3.2.own id ⟨4, t4⟩}) := by
    rw [show r4 = checkRateLimitT r3.2 id t4 from rfl,
      checkRateLimitT_plain r3.2 id t4 hid, e3]
    rw [lookupE_setE_same]
    simp only [if_neg (by omega : ¬(t4 - t3 > 15 * 60 * 1000)),
      if_neg (by omega : ¬(3 ≥ 5))]
  have e5 : r5 = (some ⟨true, none⟩,
      {r4.2 with own := setE r4.2.own id ⟨5, t5⟩}) := by
    rw [show r5 = checkRateLimitT r4.2 id t5 from rfl,
      checkRateLimitT_plain r4.2 id t5 hid, e4]
    rw [lookupE_setE_same]
    simp only [if_neg (by omega : ¬(t5 - t4 > 15 * 60 * 1000)),
      if_neg (by omega : ¬(4 ≥ 5))]
  have e6 : r6 = (some ⟨false, some (ceilDiv (900000 - (t6 - t5)) 1000)⟩,
      r5.2) := by
    rw [show r6 = checkRateLimitT r5.2 id t6 from rfl,
      checkRateLimitT_plain r5.2 id t6 hid, e5]
    rw [lookupE_setE_same]
    simp only [if_neg (by omega : ¬(t6 - t5 > 15 * 60 * 1000)),
      if_pos (by omega : 5 ≥ 5)]
    norm_num
  refine ⟨by rw [e1], by rw [e2], by rw [e3], by rw [e4], by rw [e5],
    by rw [e6], ?_, by rw [e6], ?_⟩
  · intro r rem hr hrem
    rw [e6] at hr
    simp only [Option.some.injEq] at hr
    rw [← hr] at hrem
    simp only [Option.some.injEq] at hrem
    rw [← hrem, ceilDiv_eq_ediv _ _ (by omega)]
    omega
  · intro tb e t' hlook hexp
    have hexp2 : t' - e.lastAttempt > 15 * 60 * 1000 := by omega
    simp [checkRateLimitT_plain tb id t' hid, hlook, hexp2]
    exact fun h => absurd h (by omega)

theorem C2_rateLimit_witness :
    (checkRateLimitT (checkRateLimitT (checkRateLimitT (checkRateLimitT
      (checkRateLimitT (checkRateLimitT emptyRL (jstr "u") 0).2 (jstr "u") 1).2
      (jstr "u") 2).2 (jstr "u") 3).2 (jstr "u") 4).2 (jstr "u") 5).1 =
      some ⟨false, some (ceilDiv (900000 - 1) 1000)⟩ := by
  have h := C2_rateLimit emptyRL (jstr "u") 0 1 2 3 4 5 (by decide) (by decide)
    (by decide) (by decide) (by decide) (by decide) (by decide) (by decide)
  exact h.2.2.2.2.2.1

end JsModel

namespace JsModel

/-- What logout does to the observable state: the session slot holds the
empty ciphertext, the attempt table is replaced by a fresh empty object
(only the writes that landed on the global objects surviving), and the
session reads back as absent. -/
theorem logout_spec (s : Sys) :
    getItem (logout s).storage (secKey SESSION_STORAGE_KEY) = some [] ∧
    (logout s).authAttempts =
      ⟨[], s.authAttempts.mem, s.authAttempts.opLast, none⟩ ∧
    secureRetrieve (logout s) SESSION_STORAGE_KEY = none := by
  obtain ⟨s', hstore, hret, hempty, -, hat, -, -⟩ :=
    secureStore_spec s SESSION_STORAGE_KEY [] (by simp)
  have hlog : logout s = clearSensitiveData s' := by
    rw [logout]
    simp only [hstore, if_true]
  rw [hlog]
  refine ⟨hempty rfl, ?_, ?_⟩
  · show (⟨[], s'.authAttempts.mem, s'.authAttempts.opLast, none⟩ : RLSys) =
      ⟨[], s.authAttempts.mem, s.authAttempts.opLast, none⟩
    rw [hat]
  · show secureRetrieve s' SESSION_STORAGE_KEY = none
    simpa using hret

/-- On a table freshly replaced by an empty literal a check never denies:
it is allowed for every identifier, except that the single name
"lastAttempt" throws when Object.prototype still carries a polluted
timestamp that is truthy and inside the open window. -/
theorem checkRateLimitT_cleared (m : List (JStr × Int)) (op : Option Int)
    (id : JStr) (now : Int) :
    (checkRateLimitT ⟨[], m, op, none⟩ id now).1 = some ⟨true, none⟩ ∨
    ((checkRateLimitT ⟨[], m, op, none⟩ id now).1 = none ∧
      id = jstr "lastAttempt" ∧
      ∃ v, op = some v ∧ v ≠ 0 ∧ now - v ≤ 900000) := by
  simp only [checkRateLimitT]
  have hag : aget ⟨[], m, op, none⟩ id = protoGet ⟨[], m, op, none⟩ id := rfl
  rw [hag, protoGet]
  by_cases h1 : objectProtoMembers.contains id
  · rw [if_pos h1]
    by_cases hw : windowExpired now ((AVal.memObj id).last ⟨[], m, op, none⟩)
    · left
      simp [AVal.falsy, hw]
    · left
      simp [AVal.falsy, hw, AVal.cnt, countAtCap]
  · rw [if_neg h1]
    by_cases h2 : id = jstr "__proto__"
    · rw [if_pos h2]
      by_cases hw : windowExpired now ((AVal.protoObj).last ⟨[], m, op, none⟩)
      · left
        simp [AVal.falsy, hw]
      · left
        simp [AVal.falsy, hw, AVal.cnt, countAtCap]
    · rw [if_neg h2]
      by_cases h3 : id = jstr "lastAttempt"
      · rw [if_pos h3]
        rcases op with _ | v
        · left
          simp [AVal.falsy]
        · by_cases hv : v = 0
          · left
            simp [AVal.falsy, hv]
          · have hfal : (AVal.numv v).falsy = false := by
              simp [AVal.falsy, hv]
            rw [hfal]
            by_cases hw :
                windowExpired now ((AVal.numv v).last ⟨[], m, some v, none⟩)
            · left
              simp [hw]
            · right
              have hla : (AVal.numv v).last ⟨[], m, some v, none⟩ = some v := by
                simp [AVal.last]
              refine ⟨?_, h3, v, rfl, hv, ?_⟩
              · simp [hw, AVal.cnt, countAtCap]
              · rw [hla] at hw
                simp only [windowExpired, decide_eq_true_eq] at hw
                omega
      · rw [if_neg h3]
        left
        simp [AVal.falsy]

/-- C7 counterexample: a previously locked-out identity need not be
allowed on its next attempt after logout, and logout does not reset every
identity's throttle state.  The identifiers "lastAttempt" and "__proto__"
both pass the username validator.  Five checks lock "lastAttempt" out (the
sixth is denied); one check on "__proto__" then runs the increment branch
on the table's prototype — Object.prototype itself — writing
Object.prototype.lastAttempt (state that survives every
`this.authAttempts = {}`).  After logout the next check on "lastAttempt"
reads that polluted number from the chain; the number is truthy, inside
the window, and its count is undefined, so the increment branch executes
`userAttempts.count++` with a primitive base — which, class bodies being
strict mode code, throws a TypeError (result `none`) instead of returning
allowed. -/
theorem C7_counterexample :
    (validateAndSanitizeInput (jstr "lastAttempt") .username).isValid = true ∧
    (validateAndSanitizeInput (jstr "__proto__") .username).isValid = true ∧
    (let w1 := checkRateLimitT emptyRL (jstr "lastAttempt") 0
     let w2 := checkRateLimitT w1.2 (jstr "lastAttempt") 1
     let w3 := checkRateLimitT w2.2 (jstr "lastAttempt") 2
     let w4 := checkRateLimitT w3.2 (jstr "lastAttempt") 3
     let w5 := checkRateLimitT w4.2 (jstr "lastAttempt") 4
     let w6 := checkRateLimitT w5.2 (jstr "lastAttempt") 5
     let w7 := checkRateLimitT w6.2 (jstr "__proto__") 6
     let s : Sys := ⟨[], w7.2, fun _ => 7, 0⟩
     w6.1 = some ⟨false, some 900⟩ ∧
     w7.1 = some ⟨true, none⟩ ∧
     (logout s).authAttempts.own = [] ∧
     (checkRateLimit (logout s) (jstr "lastAttempt")).1 = none) := by decide

/-- C7 (amended): logout overwrites the session storage slot with an empty
value and resets the attempt table to a fresh empty object — own entries
gone, prototype restored: a global reset not scoped to one identity.
Afterwards no identity is ever denied by the limiter (a denial needs a
count at the cap, reachable only through the cleared own entries or the
cleared replaced prototype); every identifier other than the literal name
"lastAttempt" is allowed on its next check; and when
Object.prototype.lastAttempt is unpolluted — in particular in any run that
never attempted the username "__proto__" — every identifier without
exception is allowed.  The sole residue is that pollution: it survives the
reset, and a next check on "lastAttempt" inside its window throws instead
of allowing (C7's counterexample). -/
theorem C7_logout (s : Sys) :
    getItem (logout s).storage (secKey SESSION_STORAGE_KEY) = some [] ∧
    (logout s).authAttempts.own = [] ∧
    (logout s).authAttempts.proto = none ∧
    (∀ id now r, (checkRateLimitT (logout s).authAttempts id now).1 = some r →
      r.allowed = true) ∧
    (∀ id now, id ≠ jstr "lastAttempt" →
      (checkRateLimitT (logout s).authAttempts id now).1 = some ⟨true, none⟩) ∧
    (s.authAttempts.opLast = none →
      ∀ id now, (checkRateLimitT (logout s).authAttempts id now).1 =
        some ⟨true, none⟩) := by
  obtain ⟨h1, h2, -⟩ := logout_spec s
  refine ⟨h1, by rw [h2], by rw [h2], ?_, ?_, ?_⟩
  · intro id now r hr
    rw [h2] at hr
    rcases checkRateLimitT_cleared s.authAttempts.mem s.authAttempts.opLast
        id now with h | ⟨h, -, -⟩
    · rw [h] at hr
      cases hr
      rfl
    · rw [h] at hr
      cases hr
  · intro id now hid
    rw [h2]
    rcases checkRateLimitT_cleared s.authAttempts.mem s.authAttempts.opLast
        id now with h | ⟨-, hla, -⟩
    · exact h
    · exact absurd hla hid
  · intro hop id now
    rw [h2]
    rcases checkRateLimitT_cleared s.authAttempts.mem s.authAttempts.opLast
        id now with h | ⟨-, -, v, hv, -⟩
    · exact h
    · rw [hop] at hv
      cases hv

theorem C7_logout_witness :
    (checkRateLimitT (logout ⟨[], emptyRL, fun _ => 0, 0⟩).authAttempts
      (jstr "alice") 0).1 = some ⟨true, none⟩ :=
  (C7_logout ⟨[], emptyRL, fun _ => 0, 0⟩).2.2.2.2.1 (jstr "alice") 0
    (by decide)

/-- C10: after secureStore(k, "") a secureRetrieve(k) returns absent (null)
rather than the empty string, the empty stored ciphertext failing the same
truthiness test as a missing entry; in particular the logged-out session,
stored as the empty string, reads back as no session. -/
theorem C10_emptyStore (s : Sys) (k : JStr) :
    secureRetrieve (secureStore s k []).2 k = none ∧
    (getCurrentSession (logout s)).1 = none := by
  constructor
  · obtain ⟨s', hstore, hret, -, -, -, -, -⟩ := secureStore_spec s k [] (by simp)
    rw [hstore]
    simpa using hret
  · obtain ⟨-, -, hnone⟩ := logout_spec s
    rw [getCurrentSession, hnone]

/-- C6: when the stored session record parses and its loginTime lies more
than 24 hours (86400000 ms) before the current time, getCurrentSession
performs logout as a side effect, leaving the session slot overwritten with
the empty value, and returns absent; when the session is not older than 24
hours it returns the session fields projected into the user shape
(username, userId, createdAt := loginTime). -/
theorem C6_sessionExpiry (s : Sys) (sd : JStr) (sess : Session)
    (hread : secureRetrieve s SESSION_STORAGE_KEY = some sd)
    (hparse : parseSession sd = some sess) :
    (s.time s.tick - sess.loginTime > 86400000 →
      (getCurrentSession s).1 = none ∧
      getItem (getCurrentSession s).2.storage (secKey SESSION_STORAGE_KEY) =
        some []) ∧
    (s.time s.tick - sess.loginTime ≤ 86400000 →
      (getCurrentSession s).1 =
        some {username := sess.username, userId := sess.userId,
              createdAt := sess.loginTime}) := by
  have hcur : getCurrentSession s =
      if 86400000 < s.time s.tick - sess.loginTime
      then (none, logout {s with tick := s.tick + 1})
      else (some ⟨sess.username, sess.userId, sess.loginTime⟩,
            {s with tick := s.tick + 1}) := by
    rw [getCurrentSession, hread]
    simp only [hparse, dateNow]
    norm_num
  constructor
  · intro hexp
    rw [hcur, if_pos (by omega)]
    exact ⟨rfl, (logout_spec _).1⟩
  · intro hyoung
    rw [hcur, if_neg (by omega)]

end JsModel

namespace JsModel

theorem checkRateLimit_eq (s : Sys) (u : JStr) :
    checkRateLimit s u =
      ((checkRateLimitT s.authAttempts u (s.time s.tick)).1,
       {storage := s.storage,
        authAttempts := (checkRateLimitT s.authAttempts u (s.time s.tick)).2,
        time := s.time, tick := s.tick + 1}) := rfl

theorem getStoredUsers_congr {s1 s2 : Sys} (h : s1.storage = s2.storage) :
    getStoredUsers s1 = getStoredUsers s2 := by
  rw [getStoredUsers, getStoredUsers, secureRetrieve, secureRetrieve, h]

theorem secureRetrieve_congr {s1 s2 : Sys} (h : s1.storage = s2.storage)
    (k : JStr) : secureRetrieve s1 k = secureRetrieve s2 k := by
  rw [secureRetrieve, secureRetrieve, h]

/-- authenticateUser with valid formats and an open rate limit fails with
the generic credential error whenever the username misses the registry or
the stored digest does not match the supplied password's digest. -/
theorem authenticateUser_invalidCred (s : Sys) (u p : JStr)
    (hu : (validateAndSanitizeInput u .username).isValid = true)
    (hp : (validateAndSanitizeInput p .password).isValid = true)
    (hrl : (checkRateLimitT s.authAttempts
      (validateAndSanitizeInput u .username).sanitized
      (s.time s.tick)).1 = some ⟨true, none⟩)
    (hmiss : ∀ user, (getStoredUsers s).find?
        (fun x => x.username == (validateAndSanitizeInput u .username).sanitized)
        = some user →
      secureRetrieve s (jstr "pwd_" ++ user.userId) ≠
        hashPassword (validateAndSanitizeInput p .password).sanitized) :
    (authenticateUser s ⟨u, p⟩).1 = ⟨false, some invalidCredMsg, none⟩ := by
  rw [authenticateUser]
  simp only [hu, hp, Bool.not_true, Bool.or_self, Bool.false_eq_true, if_false,
    checkRateLimit_eq, hrl]
  have hgs : getStoredUsers
      {storage := s.storage,
       authAttempts := (checkRateLimitT s.authAttempts
         (validateAndSanitizeInput u .username).sanitized (s.time s.tick)).2,
       time := s.time, tick := s.tick + 1} = getStoredUsers s :=
    getStoredUsers_congr rfl
  rw [hgs]
  rcases hfind : (getStoredUsers s).find?
      (fun x => x.username == (validateAndSanitizeInput u .username).sanitized)
      with _ | user
  · rw [hfind]
  · rw [hfind]
    obtain ⟨d, hd, -, -⟩ :=
      hashPassword_some (validateAndSanitizeInput p .password).sanitized
    have hsr : secureRetrieve
        {storage := s.storage,
         authAttempts := (checkRateLimitT s.authAttempts
           (validateAndSanitizeInput u .username).sanitized (s.time s.tick)).2,
         time := s.time, tick := s.tick + 1} (jstr "pwd_" ++ user.userId) =
        secureRetrieve s (jstr "pwd_" ++ user.userId) :=
      secureRetrieve_congr rfl _
    simp only [hd, hsr]
    rw [if_pos]
    exact fun hc => hmiss user hfind (by rw [hc, hd])

end JsModel

namespace JsModel

/-- C4: for a registered user queried with a wrong (valid-format) password,
and for an unknown (valid-format) username with any valid-format password,
both with the rate limit open, authenticateUser fails and the two failure
results carry the identical generic message "Invalid username or password",
so the caller cannot distinguish an unknown user from a wrong password. -/
theorem C4_genericError (s : Sys) (u p u2 p2 : JStr) (user : User)
    (hu : (validateAndSanitizeInput u .username).isValid = true)
    (hp : (validateAndSanitizeInput p .password).isValid = true)
    (hu2 : (validateAndSanitizeInput u2 .username).isValid = true)
    (hp2 : (validateAndSanitizeInput p2 .password).isValid = true)
    (hrl1 : (checkRateLimitT s.authAttempts
      (validateAndSanitizeInput u .username).sanitized
      (s.time s.tick)).1 = some ⟨true, none⟩)
    (hrl2 : (checkRateLimitT s.authAttempts
      (validateAndSanitizeInput u2 .username).sanitized
      (s.time s.tick)).1 = some ⟨true, none⟩)
    (hfound : (getStoredUsers s).find?
      (fun x => x.username == (validateAndSanitizeInput u .username).sanitized)
      = some user)
    (hwrong : secureRetrieve s (jstr "pwd_" ++ user.userId) ≠
      hashPassword (validateAndSanitizeInput p .password).sanitized)
    (hunknown : (getStoredUsers s).find?
      (fun x => x.username == (validateAndSanitizeInput u2 .username).sanitized)
      = none) :
    (authenticateUser s ⟨u, p⟩).1 = ⟨false, some invalidCredMsg, none⟩ ∧
    (authenticateUser s ⟨u2, p2⟩).1 = ⟨false, some invalidCredMsg, none⟩ ∧
    (authenticateUser s ⟨u, p⟩).1.error =
      (authenticateUser s ⟨u2, p2⟩).1.error := by
  have h1 := authenticateUser_invalidCred s u p hu hp hrl1 (fun w hw => by
    rw [hfound] at hw
    cases hw
    exact hwrong)
  have h2 := authenticateUser_invalidCred s u2 p2 hu2 hp2 hrl2 (fun w hw => by
    rw [hunknown] at hw
    cases hw)
  exact ⟨h1, h2, by rw [h1, h2]⟩

theorem C4_genericError_witness :
    (authenticateUser
      (registerUser ⟨[], emptyRL, fun i => 1760000000000 + (i : Int), 0⟩
        ⟨jstr "demo_user", jstr "SecurePass123"⟩).2
      ⟨jstr "demo_user", jstr "WrongPass123"⟩).1 =
      ⟨false, some invalidCredMsg, none⟩ ∧
    (authenticateUser
      (registerUser ⟨[], emptyRL, fun i => 1760000000000 + (i : Int), 0⟩
        ⟨jstr "demo_user", jstr "SecurePass123"⟩).2
      ⟨jstr "other_user", jstr "SecurePass123"⟩).1 =
      ⟨false, some invalidCredMsg, none⟩ := by
  have h := C4_genericError
    (registerUser ⟨[], emptyRL, fun i => 1760000000000 + (i : Int), 0⟩
      ⟨jstr "demo_user", jstr "SecurePass123"⟩).2
    (jstr "demo_user") (jstr "WrongPass123") (jstr "other_user")
    (jstr "SecurePass123")
    (((getStoredUsers (registerUser ⟨[], emptyRL, fun i => 1760000000000 + (i : Int), 0⟩
        ⟨jstr "demo_user", jstr "SecurePass123"⟩).2).find?
      (fun x => x.username ==
        (validateAndSanitizeInput (jstr "demo_user") .username).sanitized)).getD
      ⟨[], [], 0⟩)
    (by decide) (by decide) (by decide) (by decide) (by decide) (by decide)
    (by decide) (by decide) (by decide)
  exact ⟨h.1, h.2.1⟩

end JsModel

namespace JsModel

theorem username_valid_re {u : JStr}
    (h : (validateAndSanitizeInput u .username).isValid = true) :
    usernameRe (sanitizeJ u) = true := by
  rcases hre : usernameRe (sanitizeJ u)
  · exfalso
    have hfalse : (validateAndSanitizeInput u .username).isValid = false := by
      simp [validateAndSanitizeInput, hre]
    rw [h] at hfalse
    cases hfalse
  · rfl

theorem usernameRe_plain {s : JStr} (h : usernameRe s = true) :
    plainStr s = true := by
  have hall : s.all isWordC = true := by
    unfold usernameRe at h
    exact (Bool.and_eq_true_iff.mp h).2
  rw [plainStr, List.all_eq_true]
  intro c hc
  have hw := List.all_eq_true.mp hall c hc
  have h2 := of_decide_eq_true hw
  rw [plainB_iff]
  rcases h2 with h2 | h2 | h2 | h2 <;> omega

theorem genIdAt_some (u0 : JStr) (t : Int) :
    ∃ uid, genIdAt u0 t = some uid ∧ plainStr uid = true := by
  obtain ⟨d, hd, -, hpl⟩ := hashPassword_some (u0 ++ intStr 10 t)
  have hlit : ∀ c ∈ jstr "user_", plainB c = true := by decide
  refine ⟨jstr "user_" ++ d.take 12, by rw [genIdAt, hd]; rfl, ?_⟩
  rw [plainStr, List.all_eq_true]
  intro c hc
  rcases List.mem_append.mp hc with h | h
  · exact hlit c h
  · exact hpl c (List.take_subset 12 d h)

theorem generateSecureUserId_eq (s : Sys) (u0 : JStr) :
    generateSecureUserId s u0 =
      (genIdAt u0 (s.time s.tick),
       {storage := s.storage, authAttempts := s.authAttempts,
        time := s.time, tick := s.tick + 1}) := rfl

theorem find?_append_of_none {α : Type} {p : α → Bool} {l1 l2 : List α}
    (h : l1.find? p = none) : (l1 ++ l2).find? p = l2.find? p := by
  induction l1 with
  | nil => rfl
  | cons a l ih =>
    rw [List.find?_cons] at h
    rw [List.cons_append, List.find?_cons]
    rcases hp : p a with _ | _
    · rw [hp] at h
      exact ih h
    · rw [hp] at h
      simp at h

theorem pwdKey_ne_users (uid : JStr) : jstr "pwd_" ++ uid ≠ USERS_STORAGE_KEY := by
  intro h
  have h1 : jstr "pwd_" ++ uid = 112 :: (jstr "wd_" ++ uid) := rfl
  have h2 : USERS_STORAGE_KEY = 97 :: jstr "pp_users" := rfl
  rw [h1, h2] at h
  simp at h

theorem pwdKey_ne_session (uid : JStr) :
    jstr "pwd_" ++ uid ≠ SESSION_STORAGE_KEY := by
  intro h
  have h1 : jstr "pwd_" ++ uid = 112 :: (jstr "wd_" ++ uid) := rfl
  have h2 : SESSION_STORAGE_KEY = 117 :: jstr "ser_session" := rfl
  rw [h1, h2] at h
  simp at h

theorem users_ne_session : USERS_STORAGE_KEY ≠ SESSION_STORAGE_KEY := by decide

theorem usersToJson_ne_nil (us : List User) : usersToJson us ≠ [] := by
  rw [usersToJson]
  have h1 : jstr "[" = [91] := rfl
  rw [h1]
  simp

theorem WFUser_of_plain {u0 uid : JStr} {t : Int}
    (h1 : plainStr u0 = true) (h2 : plainStr uid = true) :
    WFUser ⟨u0, uid, t⟩ = true := by
  simp [WFUser, h1, h2]

theorem WFUsers_append {us : List User} {u0 : User}
    (h1 : WFUsers us = true) (h2 : WFUser u0 = true) :
    WFUsers (us ++ [u0]) = true := by
  rw [WFUsers, List.all_append]
  rw [WFUsers] at h1
  simp [h1, h2]

end JsModel

namespace JsModel

/-- The success path of registerUser: with valid, non-weak credentials and
a fresh username over a well-formed registry, registration succeeds, the
minted user carries the sanitised username, the stored digest reads back,
the registry reads back extended by the new user, and the attempt table is
untouched (four clock readings are consumed). -/
theorem registerUser_spec (s : Sys) (u p : JStr) (us : List User)
    (hu : (validateAndSanitizeInput u .username).isValid = true)
    (hp : (validateAndSanitizeInput p .password).isValid = true)
    (hw : isWeakPassword p = false)
    (hus : getStoredUsers s = us)
    (hwf : WFUsers us = true)
    (hnew : (us.any fun w =>
      w.username == (validateAndSanitizeInput u .username).sanitized) = false) :
    ∃ uid dg s4,
      registerUser s ⟨u, p⟩ =
        ({success := true, error := none,
          user := some ⟨(validateAndSanitizeInput u .username).sanitized, uid,
            s.time (s.tick + 1)⟩}, s4) ∧
      plainStr uid = true ∧
      hashPassword (validateAndSanitizeInput p .password).sanitized = some dg ∧
      getStoredUsers s4 =
        us ++ [⟨(validateAndSanitizeInput u .username).sanitized, uid,
          s.time (s.tick + 1)⟩] ∧
      secureRetrieve s4 (jstr "pwd_" ++ uid) = some dg ∧
      s4.authAttempts = s.authAttempts ∧ s4.time = s.time ∧ s4.tick = s.tick + 4 := by
  obtain ⟨uid, hgen, hupl⟩ :=
    genIdAt_some (validateAndSanitizeInput u .username).sanitized (s.time s.tick)
  obtain ⟨dg, hdg, hdgne, hdgpl⟩ :=
    hashPassword_some (validateAndSanitizeInput p .password).sanitized
  have hsanpl : plainStr (validateAndSanitizeInput u .username).sanitized = true :=
    usernameRe_plain (username_valid_re hu)
  have hwfnew : WFUser ⟨(validateAndSanitizeInput u .username).sanitized, uid,
      s.time (s.tick + 1)⟩ = true := WFUser_of_plain hsanpl hupl
  have hwf2 : WFUsers (us ++ [⟨(validateAndSanitizeInput u .username).sanitized,
      uid, s.time (s.tick + 1)⟩]) = true := WFUsers_append hwf hwfnew
  obtain ⟨s3, hst3, hret3, -, hfr3, hat3, htime3, htick3⟩ :=
    secureStore_spec
      {storage := s.storage, authAttempts := s.authAttempts, time := s.time,
       tick := s.tick + 1 + 1} (jstr "pwd_" ++ uid) dg
      (plainStr_lt_256 (by rw [plainStr, List.all_eq_true]; exact hdgpl))
  obtain ⟨s4, hst4, hret4, -, hfr4, hat4, htime4, htick4⟩ :=
    secureStore_spec s3 USERS_STORAGE_KEY
      (usersToJson (us ++ [⟨(validateAndSanitizeInput u .username).sanitized,
        uid, s.time (s.tick + 1)⟩]))
      (usersJson_bytes _ hwf2)
  refine ⟨uid, dg, s4, ?_, hupl, hdg, ?_, ?_, ?_, ?_, ?_⟩
  · rw [registerUser]
    simp only [hu, hp, hw, Bool.not_true, Bool.false_eq_true, if_false, hus, hnew,
      generateSecureUserId_eq, hgen, dateNow, hdg, hst3, hst4]
  · rw [getStoredUsers, hret4, if_neg (usersToJson_ne_nil _)]
    simp only [parseUsers_print _ hwf2, Option.getD_some]
  · rw [hfr4 _ (pwdKey_ne_users uid), hret3, if_neg hdgne]
  · rw [hat4, hat3]
  · rw [htime4, htime3]
  · rw [htick4, htick3]

end JsModel

namespace JsModel

/-- createSession always succeeds for a user with plain string fields: the
session JSON survives the cipher, so the store throws nothing. -/
theorem createSession_ok (s : Sys) (user : User)
    (hun : plainStr user.username = true) (huid : plainStr user.userId = true) :
    ∃ s2, createSession s user = (true, s2) := by
  obtain ⟨sid, hgen, hsidpl⟩ :=
    genIdAt_some (user.username ++ intStr 10 (s.time (s.tick + 1)))
      (s.time (s.tick + 1 + 1))
  obtain ⟨s2, hst, -, -, -, -, -, -⟩ :=
    secureStore_spec
      {storage := s.storage, authAttempts := s.authAttempts, time := s.time,
       tick := s.tick + 1 + 1 + 1} SESSION_STORAGE_KEY
      (sessionToJson ⟨user.userId, user.username, s.time s.tick, sid⟩)
      (sessionJson_bytes _ huid hun hsidpl)
  refine ⟨s2, ?_⟩
  rw [createSession]
  simp only [dateNow, generateSecureUserId_eq, hgen, hst]

/-- The success path of authenticateUser: valid formats, open rate limit,
username found, digests equal; the call reports success with the found
user. -/
theorem authenticateUser_success (s : Sys) (u p : JStr) (user : User)
    (hu : (validateAndSanitizeInput u .username).isValid = true)
    (hp : (validateAndSanitizeInput p .password).isValid = true)
    (hrl : (checkRateLimitT s.authAttempts
      (validateAndSanitizeInput u .username).sanitized
      (s.time s.tick)).1 = some ⟨true, none⟩)
    (hfound : (getStoredUsers s).find?
      (fun x => x.username == (validateAndSanitizeInput u .username).sanitized)
      = some user)
    (hhash : secureRetrieve s (jstr "pwd_" ++ user.userId) =
      hashPassword (validateAndSanitizeInput p .password).sanitized)
    (hun : plainStr user.username = true) (huid : plainStr user.userId = true) :
    (authenticateUser s ⟨u, p⟩).1 = ⟨true, none, some user⟩ := by
  rw [authenticateUser]
  simp only [hu, hp, Bool.not_true, Bool.or_self, Bool.false_eq_true, if_false,
    checkRateLimit_eq, hrl]
  have hgs : getStoredUsers
      {storage := s.storage,
       authAttempts := (checkRateLimitT s.authAttempts
         (validateAndSanitizeInput u .username).sanitized (s.time s.tick)).2,
       time := s.time, tick := s.tick + 1} = getStoredUsers s :=
    getStoredUsers_congr rfl
  rw [hgs, hfound]
  obtain ⟨dg, hdg, -, -⟩ :=
    hashPassword_some (validateAndSanitizeInput p .password).sanitized
  have hsr : secureRetrieve
      {storage := s.storage,
       authAttempts := (checkRateLimitT s.authAttempts
         (validateAndSanitizeInput u .username).sanitized (s.time s.tick)).2,
       time := s.time, tick := s.tick + 1} (jstr "pwd_" ++ user.userId) =
      some dg :=
    (secureRetrieve_congr rfl _).trans (hhash.trans hdg)
  obtain ⟨s2, hcs⟩ := createSession_ok
    {storage := s.storage,
     authAttempts := (checkRateLimitT s.authAttempts
       (validateAndSanitizeInput u .username).sanitized (s.time s.tick)).2,
     time := s.time, tick := s.tick + 1} user hun huid
  simp only [hdg, hsr, hcs, Bool.not_true, Bool.false_eq_true, if_false]
  rw [if_neg (by simp)]

end JsModel

namespace JsModel

/-- The password condition as claim C1's parenthetical words it: the
sanitised password has length at least 8 and contains a lowercase letter,
an uppercase letter and a digit, each anywhere in the string. -/
def specPasswordOk (p : JStr) : Bool :=
  decide (8 ≤ (sanitizeJ p).length) &&
  ((sanitizeJ p).any fun c => decide (97 ≤ c ∧ c ≤ 122)) &&
  ((sanitizeJ p).any fun c => decide (65 ≤ c ∧ c ≤ 90)) &&
  ((sanitizeJ p).any fun c => decide (48 ≤ c ∧ c ≤ 57))

/-- C1 counterexample: the password "abc\nABC12345" contains a lowercase
letter, an uppercase letter and a digit and has length at least 8, i.e. it
passes validation as the claim words it, and it is not on the weak-password
list; yet registerUser rejects it: in
/(?=.*[a-z])(?=.*[A-Z])(?=.*\d)/.test the dot does not cross the line
terminator, so no start position sees all three classes, and registration
fails with the password-classes validation error instead of succeeding. -/
theorem C1_counterexample :
    specPasswordOk (jstr "abc\nABC12345") = true ∧
    isWeakPassword (jstr "abc\nABC12345") = false ∧
    (validateAndSanitizeInput (jstr "demo_user") .username).isValid = true ∧
    (registerUser ⟨[], emptyRL, fun i => 1760000000000 + (i : Int), 0⟩
      ⟨jstr "demo_user", jstr "abc\nABC12345"⟩).1 =
      ⟨false, some errPwClasses, none⟩ := by decide

/-- C1 (amended): for any username and password that both pass validation
— the password condition being the regular expression's own semantics:
some start position sees a lowercase letter, an uppercase letter and a
digit without crossing a line terminator — with the password not on the
weak deny list, the sanitised username not already registered (over a
well-formed registry) and the rate limit open, registerUser succeeds and a
subsequent authenticateUser with the same credentials succeeds, returning
a user whose username is the sanitised username. -/
theorem C1_registerThenAuthenticate (s : Sys) (u p : JStr) (us : List User)
    (hu : (validateAndSanitizeInput u .username).isValid = true)
    (hp : (validateAndSanitizeInput p .password).isValid = true)
    (hw : isWeakPassword p = false)
    (hus : getStoredUsers s = us)
    (hwf : WFUsers us = true)
    (hnew : (us.any fun w =>
      w.username == (validateAndSanitizeInput u .username).sanitized) = false)
    (hrl : ∀ t, (checkRateLimitT s.authAttempts
      (validateAndSanitizeInput u .username).sanitized t).1 = some ⟨true, none⟩) :
    (registerUser s ⟨u, p⟩).1.success = true ∧
    ∃ usr, (authenticateUser (registerUser s ⟨u, p⟩).2 ⟨u, p⟩).1 =
      ⟨true, none, some usr⟩ ∧
      usr.username = (validateAndSanitizeInput u .username).sanitized := by
  obtain ⟨uid, dg, s4, hreg, hupl, hdg, hgs4, hpwd4, hat4, htime4, htick4⟩ :=
    registerUser_spec s u p us hu hp hw hus hwf hnew
  have hsanpl : plainStr (validateAndSanitizeInput u .username).sanitized = true :=
    usernameRe_plain (username_valid_re hu)
  have hregsnd : (registerUser s ⟨u, p⟩).2 = s4 := by rw [hreg]
  have hregfst : (registerUser s ⟨u, p⟩).1.success = true := by rw [hreg]
  refine ⟨hregfst,
    ⟨⟨(validateAndSanitizeInput u .username).sanitized, uid, s.time (s.tick + 1)⟩,
     ?_, rfl⟩⟩
  rw [hregsnd]
  apply authenticateUser_success s4 u p _ hu hp ?_ ?_ ?_ hsanpl hupl
  · rw [hat4]
    exact hrl _
  · rw [hgs4]
    have husnone : us.find?
        (fun x => x.username ==
          (validateAndSanitizeInput u .username).sanitized) = none := by
      rw [List.find?_eq_none]
      intro x hx
      have := List.any_eq_false.mp hnew x hx
      simp at this ⊢
      exact this
    rw [find?_append_of_none husnone]
    simp [List.find?]
  · show secureRetrieve s4 (jstr "pwd_" ++ uid) =
      hashPassword (validateAndSanitizeInput p .password).sanitized
    rw [hpwd4, hdg]

theorem C1_registerThenAuthenticate_witness :
    (registerUser ⟨[], emptyRL, fun i => 1760000000000 + (i : Int), 0⟩
      ⟨jstr "demo_user", jstr "SecurePass123"⟩).1.success = true ∧
    ∃ usr, (authenticateUser
      (registerUser ⟨[], emptyRL, fun i => 1760000000000 + (i : Int), 0⟩
        ⟨jstr "demo_user", jstr "SecurePass123"⟩).2
      ⟨jstr "demo_user", jstr "SecurePass123"⟩).1 = ⟨true, none, some usr⟩ ∧
      usr.username =
        (validateAndSanitizeInput (jstr "demo_user") .username).sanitized :=
  C1_registerThenAuthenticate ⟨[], emptyRL, fun i => 1760000000000 + (i : Int), 0⟩
    (jstr "demo_user") (jstr "SecurePass123") [] (by decide) (by decide)
    (by decide) (by decide) (by decide) (by decide) (fun t => rfl)

end JsModel

namespace JsModel

theorem C6_sessionExpiry_witness :
    (getCurrentSession
      {(secureStore ⟨[], emptyRL, fun _ => 0, 0⟩ SESSION_STORAGE_KEY
        (sessionToJson ⟨jstr "uid_1", jstr "demo", 0, jstr "sid_1"⟩)).2 with
        time := fun _ => 90000000}).1 = none ∧
    getItem (getCurrentSession
      {(secureStore ⟨[], emptyRL, fun _ => 0, 0⟩ SESSION_STORAGE_KEY
        (sessionToJson ⟨jstr "uid_1", jstr "demo", 0, jstr "sid_1"⟩)).2 with
        time := fun _ => 90000000}).2.storage (secKey SESSION_STORAGE_KEY) =
      some [] :=
  (C6_sessionExpiry
    {(secureStore ⟨[], emptyRL, fun _ => 0, 0⟩ SESSION_STORAGE_KEY
      (sessionToJson ⟨jstr "uid_1", jstr "demo", 0, jstr "sid_1"⟩)).2 with
      time := fun _ => 90000000}
    (sessionToJson ⟨jstr "uid_1", jstr "demo", 0, jstr "sid_1"⟩)
    ⟨jstr "uid_1", jstr "demo", 0, jstr "sid_1"⟩
    (by decide) (by decide)).1 (by decide)

end JsModel
